import Mathlib

/-!
# `All::List<Type>` (AllocatorLib/src/Allocator/Types/List.cpp)

A shallow embedding of the growable array `All::List<Type>` and of the part of
the allocator it talks to, followed by theorems about its operations.

Modelling conventions.

* A `List` object is its five data members.  `m_Data` and `m_Allocator` are
  pointers: `none` is `nullptr`, `some a` is the address `a`.
* Memory is a table of buffers indexed by address.  A slot of a buffer holds
  `some v` once a value was stored in it and `none` while it is uninitialised.
  A released buffer stays in the table as `none`, so that a dangling pointer is
  told apart from a live one.
* Every member function is a function from the object and the memory to an
  `Outcome`: it returns, it lets the allocator's failure propagate, it stops in
  a failed `ALL_ASSERT`, or it has undefined behaviour (a call through a null
  allocator pointer, an access outside a live buffer, a `memcpy` between
  overlapping ranges).
* `size_t` and `uint64_t` values are natural numbers.  The only arithmetic the
  source does on them is `++m_Size`, `--m_Size`, `m_Size - 1` and the byte counts
  `n * sizeof(Type)`; none of these can wrap around while the buffer of
  `m_Capacity` slots exists in memory.
* `m_IncreaseCapacityMultiplier` is a `float`, a binary32 number, modelled by the
  dyadic number `mantissa * 2 ^ exponent`.  Conversions to `float` and products
  of `float`s are rounded to 24 significant bits, to nearest with ties to even;
  the conversion to `size_t` truncates toward zero and is undefined outside the
  64-bit range.  The exponent is not bounded: infinities, subnormal numbers and
  NaN are left out.
* A function that calls itself without a base case (the capacity constructor,
  the read-only `operator[]`) takes a bound on the depth of its calls and gives
  `none` when the bound is used up.
* The copy and move operations have no statement that touches the memory; where
  a theorem speaks of the allocator calls they issue, they are run as steps that
  hand the memory on unchanged.
-/

namespace All

/-! ## `float` -/

/-- A finite `float` value: `mantissa * 2 ^ exponent`. -/
structure Float32 where
  mantissa : Int
  exponent : Int
deriving DecidableEq, Repr

namespace Float32

/-- The rational number a `float` stands for. -/
def toRat (f : Float32) : ℚ := (f.mantissa : ℚ) * (2 : ℚ) ^ f.exponent

/-- The weight of the last of the 24 bits a binary32 number keeps of `n`: the
least power of two `u` with `n / u < 2 ^ 24`, found by halving `n`.  `fuel` bounds
the number of halvings; `n` itself is always enough. -/
def lastBitWeight : Nat → Nat → Nat
  | 0, _ => 1
  | fuel + 1, n => if n < 2 ^ 24 then 1 else 2 * lastBitWeight fuel (n / 2)

/-- Rounding of a natural significand to the 24 bits a binary32 number keeps: to
nearest, ties to even.  Below `2 ^ 24` nothing is lost; from there on the value
is a multiple of `unit`, the weight of the last bit kept. -/
def round24 (n : Nat) : Nat :=
  if n < 2 ^ 24 then n
  else
    let unit := lastBitWeight n n
    let q := n / unit
    let r := n % unit
    if 2 * r < unit then q * unit
    else if unit < 2 * r then (q + 1) * unit
    else if q % 2 = 0 then q * unit
    else (q + 1) * unit

/-- The conversion of an unsigned integer value to `float`. -/
def ofNat (n : Nat) : Float32 := ⟨round24 n, 0⟩

/-- The product of two `float`s: the exact product, rounded. -/
def mul (a b : Float32) : Float32 :=
  ⟨Int.sign (a.mantissa * b.mantissa) * round24 (a.mantissa * b.mantissa).natAbs,
   a.exponent + b.exponent⟩

/-- The integer part of a `float`, rounded toward zero. -/
def trunc (f : Float32) : Int :=
  if 0 ≤ f.exponent then f.mantissa * 2 ^ f.exponent.toNat
  else Int.tdiv f.mantissa (2 ^ (-f.exponent).toNat)

/-- The conversion of a `float` to `size_t`: the integer part, undefined (`none`)
when that is not a value of the 64-bit type. -/
def toSize (f : Float32) : Option Nat :=
  if 0 ≤ trunc f ∧ trunc f < 2 ^ 64 then some (trunc f).toNat else none

/-- The expression `m_Capacity * m_IncreaseCapacityMultiplier` passed to a
`const size_t&` parameter: the `size_t` operand is converted to `float`, the
two are multiplied, and the product is converted to `size_t`. -/
def mulToSize (c : Nat) (f : Float32) : Option Nat :=
  toSize (mul (ofNat c) f)

end Float32

/-! ## Memory and the allocator -/

/-- Contents of one buffer: a slot is `none` while uninitialised. -/
abbrev Buffer (T : Type) := List (Option T)

/-- A sequence of element values. -/
abbrev Sequence (T : Type) := List T

/-- A call received by an allocator.  `allocator` is the address of the allocator
object the call went to. -/
inductive Call where
  | Allocate (allocator : Nat) (count : Nat) (result : Option Nat)
  | Free (allocator : Nat) (buffer : Option Nat) (byteSize : Nat)
deriving DecidableEq, Repr

/-- The memory the lists live in, together with what the allocators have been
asked so far.

* `buffers[a]` is `some slots` for a live buffer at address `a` and `none` for a
  released one;
* `calls` is the sequence of allocator calls, oldest first;
* `willFail` scripts the allocators: its head says whether the next `Allocate`
  fails, and an empty script means that every further request succeeds;
* `sizeofType` is `sizeof(Type)`. -/
structure Memory (T : Type) where
  buffers : List (Option (Buffer T))
  calls : List Call
  willFail : List Bool
  sizeofType : Nat
deriving DecidableEq, Repr

namespace Memory

variable {T : Type}

/-- Modelled from the spec: `Allocator::Allocate<Type>(count)` (Allocator/Core.h is
not part of the sources).  It returns storage for `count` contiguous elements, a
fresh buffer of `count` uninitialised slots, or fails; a failure is reported to
the caller, who lets it propagate. -/
def Allocate (mem : Memory T) (allocator count : Nat) : Option Nat × Memory T :=
  match mem.willFail with
  | true :: rest =>
    (none, { mem with calls := mem.calls ++ [Call.Allocate allocator count none],
                      willFail := rest })
  | rest =>
    (some mem.buffers.length,
     { mem with buffers := mem.buffers ++ [some (List.replicate count none)],
                calls := mem.calls ++
                  [Call.Allocate allocator count (some mem.buffers.length)],
                willFail := rest.tail })

/-- Modelled from the spec: `Allocator::Free(buffer, byteSize)` (Allocator/Core.h is
not part of the sources).  It releases the buffer; the call is recorded with the
byte size it was given. -/
def Free (mem : Memory T) (allocator : Nat) (buffer : Option Nat) (byteSize : Nat) :
    Memory T :=
  { mem with
    buffers := match buffer with
      | none => mem.buffers
      | some a => mem.buffers.set a none,
    calls := mem.calls ++ [Call.Free allocator buffer byteSize] }

/-- The live buffer a pointer refers to, if any. -/
def deref (mem : Memory T) (p : Option Nat) : Option (Buffer T) :=
  match p with
  | none => none
  | some a =>
    match mem.buffers[a]? with
    | some (some slots) => some slots
    | _ => none

/-- The assignment `p[i] = std::move(element)`; `none` when `p` is not a live
buffer or `i` is outside it. -/
def store (mem : Memory T) (p : Option Nat) (i : Nat) (element : T) : Option (Memory T) :=
  match p, mem.deref p with
  | some a, some slots =>
    if i < slots.length then
      some { mem with buffers := mem.buffers.set a (some (slots.set i (some element))) }
    else none
  | _, _ => none

/-- The call `std::memcpy(dst + dstOff, src + srcOff, n * sizeof(Type))`: the `n`
slots of the source are copied to the destination.  The behaviour is undefined
(`none`) when a pointer is not a live buffer, when a range leaves its buffer, and
when the two ranges overlap, that is, when they lie in one buffer and have a
slot in common. -/
def memcpy (mem : Memory T) (dst : Option Nat) (dstOff : Nat) (src : Option Nat)
    (srcOff n : Nat) : Option (Memory T) :=
  match dst, src, mem.deref dst, mem.deref src with
  | some d, some s, some dslots, some sslots =>
    if srcOff + n ≤ sslots.length ∧ dstOff + n ≤ dslots.length ∧
        ¬ (d = s ∧ dstOff < srcOff + n ∧ srcOff < dstOff + n) then
      some { mem with
        buffers := mem.buffers.set d
          (some (dslots.take dstOff ++ (sslots.drop srcOff).take n ++
                 dslots.drop (dstOff + n))) }
    else none
  | _, _, _, _ => none

end Memory

/-! ## The `List` object -/

/-- How a member function ends. -/
inductive Outcome (ρ σ : Type) where
  /-- normal return with a result and the state reached -/
  | returned (result : ρ) (state : σ)
  /-- the allocator failed and the failure propagated out of the call -/
  | threw (state : σ)
  /-- an `ALL_ASSERT` failed -/
  | asserted (state : σ)
  /-- undefined behaviour -/
  | undefined
deriving DecidableEq, Repr

/-- Modelled from the spec: `ALL_ASSERT(condition)` (the macro is defined in
Allocator/Core.h, which is not part of the sources).  A fatal assertion: when the
condition is false the call stops there, in the state it was entered with. -/
def ALL_ASSERT {ρ σ : Type} (condition : Bool) (state : σ) (rest : Outcome ρ σ) :
    Outcome ρ σ :=
  if condition then rest else Outcome.asserted state

/-- The data members of `List<Type>`. -/
structure List where
  m_Data : Option Nat
  m_Allocator : Option Nat
  m_Capacity : Nat
  m_Size : Nat
  m_IncreaseCapacityMultiplier : Float32
deriving DecidableEq, Repr

namespace List

variable {T : Type}

/-- The statement `m_Data[index] = std::move(element);` followed by the return. -/
def assignSlot (l : List) (mem : Memory T) (index : Nat) (element : T) :
    Outcome Unit (List × Memory T) :=
  match mem.store l.m_Data index element with
  | none => Outcome.undefined
  | some mem1 => Outcome.returned () (l, mem1)

/-- The constructor `List(Allocator*, const size_t& capacity, const size_t& size,
const float& increaseMultiplier)`. -/
def ctor (mem : Memory T) (allocator : Option Nat) (capacity size : Nat)
    (increaseMultiplier : Float32) : Outcome List (Memory T) :=
  match allocator with
  | none => Outcome.undefined
  | some al =>
    match mem.Allocate al capacity with
    | (none, mem1) => Outcome.threw mem1
    | (some data, mem1) =>
      Outcome.returned
        { m_Data := some data, m_Allocator := allocator, m_Capacity := capacity,
          m_Size := size, m_IncreaseCapacityMultiplier := increaseMultiplier } mem1

/-- The move constructor `List(List<Type>&& other)`: the new object and `other`
afterwards. -/
def moveCtor (other : List) : List × List :=
  ({ m_Data := other.m_Data, m_Allocator := other.m_Allocator, m_Size := other.m_Size,
     m_Capacity := other.m_Capacity,
     m_IncreaseCapacityMultiplier := other.m_IncreaseCapacityMultiplier },
   { other with m_Data := none, m_Allocator := none, m_Size := 0, m_Capacity := 0,
                m_IncreaseCapacityMultiplier := ⟨0, 0⟩ })

/-- The destructor `~List()`. -/
def dtor (l : List) (mem : Memory T) : Outcome Unit (Memory T) :=
  match l.m_Allocator with
  | none => Outcome.undefined
  | some al => Outcome.returned () (mem.Free al l.m_Data (l.m_Capacity * mem.sizeofType))

/-- The member `SetCapacity(const size_t& newCapacity)`. -/
def SetCapacity (l : List) (mem : Memory T) (newCapacity : Nat) :
    Outcome Unit (List × Memory T) :=
  match l.m_Allocator with
  | none => Outcome.undefined
  | some al =>
    match mem.Allocate al newCapacity with
    | (none, mem1) => Outcome.threw (l, mem1)
    | (some newData, mem1) =>
      if newCapacity < l.m_Capacity then
        match mem1.memcpy (some newData) 0 l.m_Data 0 newCapacity with
        | none => Outcome.undefined
        | some mem2 =>
          let l1 := { l with m_Size := if l.m_Size > newCapacity then newCapacity
                                       else l.m_Size }
          let mem3 := mem2.Free al l1.m_Data (l1.m_Capacity * mem.sizeofType)
          Outcome.returned () ({ l1 with m_Data := some newData,
                                         m_Capacity := newCapacity }, mem3)
      else
        match mem1.memcpy (some newData) 0 l.m_Data 0 l.m_Capacity with
        | none => Outcome.undefined
        | some mem2 =>
          let mem3 := mem2.Free al l.m_Data (l.m_Capacity * mem.sizeofType)
          Outcome.returned () ({ l with m_Data := some newData,
                                        m_Capacity := newCapacity }, mem3)

/-- The member `IncreaseCapacity()`. -/
def IncreaseCapacity (l : List) (mem : Memory T) : Outcome Unit (List × Memory T) :=
  match Float32.mulToSize l.m_Capacity l.m_IncreaseCapacityMultiplier with
  | none => Outcome.undefined
  | some newCapacity => SetCapacity l mem newCapacity

/-- The member `Add(Type&& element)`. -/
def Add (l : List) (mem : Memory T) (element : T) : Outcome Unit (List × Memory T) :=
  let l1 := { l with m_Size := l.m_Size + 1 }
  if l1.m_Size > l1.m_Capacity then
    match IncreaseCapacity l1 mem with
    | Outcome.returned _ (l2, mem2) => assignSlot l2 mem2 (l2.m_Size - 1) element
    | other => other
  else assignSlot l1 mem (l1.m_Size - 1) element

/-- The member `Insert(const uint64_t index, Type&& element)`. -/
def Insert (l : List) (mem : Memory T) (index : Nat) (element : T) :
    Outcome Unit (List × Memory T) :=
  ALL_ASSERT (decide (index < l.m_Size)) (l, mem) (assignSlot l mem index element)

/-- The member `Remove(const uint64_t& index)`. -/
def Remove (l : List) (mem : Memory T) (index : Nat) : Outcome Unit (List × Memory T) :=
  ALL_ASSERT (decide (index < l.m_Size)) (l, mem)
    (let l1 := { l with m_Size := l.m_Size - 1 }
     match mem.memcpy l.m_Data index l.m_Data (index + 1) (l1.m_Size - index) with
     | none => Outcome.undefined
     | some mem1 => Outcome.returned () (l1, mem1))

/-- The member `Resize(const size_t& newSize)`. -/
def Resize (l : List) (mem : Memory T) (newSize : Nat) : Outcome Unit (List × Memory T) :=
  if newSize > l.m_Capacity then
    match SetCapacity l mem newSize with
    | Outcome.returned _ (l1, mem1) => Outcome.returned () ({ l1 with m_Size := newSize }, mem1)
    | other => other
  else Outcome.returned () ({ l with m_Size := newSize }, mem)

/-- The mutable `operator[](const uint64_t& index)`.  The reference it returns is
given as the content of the slot referred to. -/
def index (l : List) (mem : Memory T) (i : Nat) : Outcome (Option T) (List × Memory T) :=
  ALL_ASSERT (decide (i < l.m_Size)) (l, mem)
    (match mem.deref l.m_Data with
     | none => Outcome.undefined
     | some slots =>
       match slots[i]? with
       | none => Outcome.undefined
       | some slot => Outcome.returned slot (l, mem))

/-- The move assignment `operator=(List<Type>&& other)`, for `other` an object
distinct from `*this`: `*this` and `other` afterwards. -/
def moveAssign (_this other : List) : List × List :=
  ({ _this with m_Data := other.m_Data, m_Capacity := other.m_Capacity,
                m_Size := other.m_Size, m_Allocator := other.m_Allocator,
                m_IncreaseCapacityMultiplier := other.m_IncreaseCapacityMultiplier },
   { other with m_Data := none, m_Capacity := 0, m_Size := 0, m_Allocator := none,
                m_IncreaseCapacityMultiplier := ⟨0, 0⟩ })

/-- Successive calls `Add(v)` for the values `v` of a sequence, in order; the first
call that does not return ends the run. -/
def addAll (l : List) (mem : Memory T) : Sequence T → Outcome Unit (List × Memory T)
  | [] => Outcome.returned () (l, mem)
  | v :: vs =>
    match l.Add mem v with
    | Outcome.returned _ (l1, mem1) => addAll l1 mem1 vs
    | other => other

/-- The buffer `m_Data` points to, when it is live. -/
def contents (l : List) (mem : Memory T) : Option (Buffer T) := mem.deref l.m_Data

end List

/-! ## Copies, the remaining constructors and the read-only access -/

namespace List

variable {T : Type}

/-- The constructor `List(Allocator* allocator, const size_t& capacity)`.  Its
mem-initializer `List<Type>(allocator, capacity)` names a constructor for the
arguments `(Allocator*, const size_t&)`, and that is this constructor: it
delegates to itself, and its empty body runs once the delegation has returned.
`fuel` bounds the depth of the delegation; the result is `none` when the
delegation has not come to an end within `fuel` steps. -/
def ctorCapacity : Nat → Memory T → Option Nat → Nat → Option (Outcome List (Memory T))
  | 0, _, _, _ => none
  | fuel + 1, mem, allocator, capacity => ctorCapacity fuel mem allocator capacity

/-- The copy constructor `List(const List<Type>& other)`, run in a memory: the new
object is the result, `other` and the memory are the state.  No statement of it
touches the memory or the allocator. -/
def copyCtor (other : List) (mem : Memory T) : Outcome List (List × Memory T) :=
  Outcome.returned
    { m_Data := other.m_Data, m_Allocator := other.m_Allocator, m_Size := other.m_Size,
      m_Capacity := other.m_Capacity,
      m_IncreaseCapacityMultiplier := other.m_IncreaseCapacityMultiplier }
    (other, mem)

/-- The copy assignment `operator=(const List<Type>& other)`, run in a memory: the
state is `*this`, `other` and the memory.  No statement of it touches the memory
or the allocator. -/
def copyAssign (self other : List) (mem : Memory T) :
    Outcome Unit ((List × List) × Memory T) :=
  Outcome.returned ()
    (({ self with m_Data := other.m_Data, m_Capacity := other.m_Capacity,
                  m_Size := other.m_Size, m_Allocator := other.m_Allocator,
                  m_IncreaseCapacityMultiplier := other.m_IncreaseCapacityMultiplier },
      other), mem)

/-- The move assignment `operator=(List<Type>&& other)` run in a memory: the state
is `*this`, `other` and the memory.  No statement of it touches the memory or the
allocator. -/
def moveAssignIn (self other : List) (mem : Memory T) :
    Outcome Unit ((List × List) × Memory T) :=
  Outcome.returned () (moveAssign self other, mem)

/-- The read-only `operator[](const uint64_t& index) const`.  Its body is the call
`List<Type>::operator[](index)` on a const object, for which the only viable
overload is the const one: the function calls itself.  `fuel` bounds the depth of
the calls; the result is `none` when the call has not returned within `fuel`
steps. -/
def indexConst : Nat → List → Memory T → Nat →
    Option (Outcome (Option T) (List × Memory T))
  | 0, _, _, _ => none
  | fuel + 1, l, mem, i => indexConst fuel l mem i

end List

/-! ## Sequences of mutating calls -/

/-- A call of one of the mutating member functions. -/
inductive Mutation (T : Type) where
  | Add (element : T)
  | Insert (index : Nat) (element : T)
  | Remove (index : Nat)
  | SetCapacity (newCapacity : Nat)
  | Resize (newSize : Nat)
deriving DecidableEq, Repr

namespace List

variable {T : Type}

/-- One mutating call on a List. -/
def mutate (l : List) (mem : Memory T) : Mutation T → Outcome Unit (List × Memory T)
  | Mutation.Add element => l.Add mem element
  | Mutation.Insert index element => l.Insert mem index element
  | Mutation.Remove index => l.Remove mem index
  | Mutation.SetCapacity newCapacity => l.SetCapacity mem newCapacity
  | Mutation.Resize newSize => l.Resize mem newSize

/-- A sequence of mutating calls, in order; the first call that does not return
ends the run. -/
def mutateAll (l : List) (mem : Memory T) :
    Sequence (Mutation T) → Outcome Unit (List × Memory T)
  | [] => Outcome.returned () (l, mem)
  | m :: ms =>
    match l.mutate mem m with
    | Outcome.returned _ (l1, mem1) => mutateAll l1 mem1 ms
    | other => other

end List

/-! ## `operator==` and `operator!=`

The `return` statement of `operator==` ends in `... && m_IncreaseCapacityMultiplier
= other.m_IncreaseCapacityMultiplier`, with `=` where the four comparisons before
it have `==`.  What follows is the expression as the grammar reads it, and the
rule that decides whether it compiles.  `operator!=` returns
`!(List<Type>::operator==(other))` and compiles only if `operator==` does. -/

/-- The data members, as names. -/
inductive Member where
  | m_Data
  | m_Size
  | m_Capacity
  | m_Allocator
  | m_IncreaseCapacityMultiplier
deriving DecidableEq, Repr

/-- The expressions `operator==` is written with: `mine m` is the member `m` of
`*this`, `theirs m` is `other.m`, then `a == b`, `a && b` and `a = b`. -/
inductive Expression where
  | mine (m : Member)
  | theirs (m : Member)
  | equal (a b : Expression)
  | logicalAnd (a b : Expression)
  | assign (a b : Expression)
deriving DecidableEq, Repr

namespace Expression

/-- Whether an expression is a modifiable lvalue.  `operator==` is a non-const
member, so the members of `*this` are; `other` is a reference to const, so its
members are not; the built-in `==` and `&&` give a prvalue of type `bool`; a
built-in assignment gives its left operand back. -/
def isModifiableLvalue : Expression → Bool
  | mine _ => true
  | theirs _ => false
  | equal _ _ => false
  | logicalAnd _ _ => false
  | assign a _ => isModifiableLvalue a

/-- Whether an expression is well-formed: the left operand of a built-in assignment
has to be a modifiable lvalue. -/
def wellFormed : Expression → Bool
  | mine _ => true
  | theirs _ => true
  | equal a b => wellFormed a && wellFormed b
  | logicalAnd a b => wellFormed a && wellFormed b
  | assign a b => isModifiableLvalue a && wellFormed a && wellFormed b

end Expression

/-- The operand of `return` in `operator==`.  `&&` binds tighter than `=`, so the
whole conjunction, ending in the member `m_IncreaseCapacityMultiplier`, is the
left operand of the assignment. -/
def operatorEqReturn : Expression :=
  Expression.assign
    (Expression.logicalAnd
      (Expression.logicalAnd
        (Expression.logicalAnd
          (Expression.logicalAnd
            (Expression.equal (Expression.mine Member.m_Data)
              (Expression.theirs Member.m_Data))
            (Expression.equal (Expression.mine Member.m_Size)
              (Expression.theirs Member.m_Size)))
          (Expression.equal (Expression.mine Member.m_Capacity)
            (Expression.theirs Member.m_Capacity)))
        (Expression.equal (Expression.mine Member.m_Allocator)
          (Expression.theirs Member.m_Allocator)))
      (Expression.mine Member.m_IncreaseCapacityMultiplier))
    (Expression.theirs Member.m_IncreaseCapacityMultiplier)

/-! ## Concrete states used in the examples -/

/-- An empty memory whose allocators never fail; elements are four bytes wide. -/
def emptyMemory : Memory Nat :=
  { buffers := [], calls := [], willFail := [], sizeofType := 4 }

/-- The multiplier `1.5f`. -/
def oneAndAHalf : Float32 := ⟨3, -1⟩

/-- A memory holding one live buffer, at address 0, with the two elements 10 and 20. -/
def fullMemory : Memory Nat :=
  { buffers := [some [some 10, some 20]], calls := [Call.Allocate 7 2 (some 0)],
    willFail := [], sizeofType := 4 }

/-- A full list of capacity 2 with multiplier `2.0f` that owns the buffer of
`fullMemory`. -/
def fullList : List :=
  { m_Data := some 0, m_Allocator := some 7, m_Capacity := 2, m_Size := 2,
    m_IncreaseCapacityMultiplier := ⟨2, 0⟩ }

/-- The memory of `fullMemory` with an allocator that refuses the next request. -/
def refusingMemory : Memory Nat :=
  { buffers := [some [some 10, some 20]], calls := [Call.Allocate 7 2 (some 0)],
    willFail := [true], sizeofType := 4 }

/-- A memory holding two live buffers: the one of `fullMemory` at address 0 and a
buffer with the element 5 at address 1. -/
def pairMemory : Memory Nat :=
  { buffers := [some [some 10, some 20], some [some 5]],
    calls := [Call.Allocate 7 2 (some 0), Call.Allocate 7 1 (some 1)],
    willFail := [], sizeofType := 4 }

/-- A list of capacity 1 that owns the second buffer of `pairMemory`. -/
def otherList : List :=
  { m_Data := some 1, m_Allocator := some 7, m_Capacity := 1, m_Size := 1,
    m_IncreaseCapacityMultiplier := ⟨2, 0⟩ }

/-! ## The `float` arithmetic -/

namespace Float32

theorem lastBitWeight_div_lt (fuel : Nat) : ∀ n, n < 2 ^ 24 * 2 ^ fuel →
    n / lastBitWeight fuel n < 2 ^ 24 := by
  induction fuel with
  | zero => intro n h; simpa [Float32.lastBitWeight] using h
  | succ fuel ih =>
    intro n h
    unfold Float32.lastBitWeight
    split
    · next hlt => simpa using hlt
    · have h2 : n / 2 < 2 ^ 24 * 2 ^ fuel := by
        rw [Nat.div_lt_iff_lt_mul (by norm_num)]
        rw [pow_succ] at h
        omega
      rw [← Nat.div_div_eq_div_mul]
      exact ih (n / 2) h2

theorem le_div_lastBitWeight (fuel : Nat) : ∀ n, 2 ^ 23 ≤ n →
    2 ^ 23 ≤ n / Float32.lastBitWeight fuel n := by
  induction fuel with
  | zero => intro n h; simpa [Float32.lastBitWeight] using h
  | succ fuel ih =>
    intro n h
    unfold Float32.lastBitWeight
    split
    · simpa using h
    · next hge =>
      rw [← Nat.div_div_eq_div_mul]
      exact ih (n / 2) (by omega)

/-- The significand `round24` rounds has 24 bits: with `u` the weight of the last
bit kept, `2 ^ 23 ≤ n / u < 2 ^ 24` for every `n` from `2 ^ 23` on. -/
theorem lastBitWeight_keeps_24_bits (n : Nat) (h : 2 ^ 23 ≤ n) :
    2 ^ 23 ≤ n / Float32.lastBitWeight n n ∧ n / Float32.lastBitWeight n n < 2 ^ 24 := by
  refine ⟨le_div_lastBitWeight n n h, lastBitWeight_div_lt n n ?_⟩
  have h1 : n < 2 ^ n := Nat.lt_two_pow n
  have h2 : 1 * 2 ^ n ≤ 2 ^ 24 * 2 ^ n := Nat.mul_le_mul_right _ (by norm_num)
  omega

theorem round24_of_lt (n : Nat) (h : n < 2 ^ 24) : Float32.round24 n = n := by
  simp only [Float32.round24, h, if_true]

/-- From `2 ^ 24` on the `float` product is no longer the exact one: for the
capacity `2 ^ 24 + 1` and the multiplier 2 it is `2 ^ 25`, not `2 ^ 25 + 2`. -/
theorem mulToSize_rounds_from_two_pow_24 :
    Float32.mulToSize 16777217 (Float32.ofNat 2) = some 33554432 := by
  decide

theorem mulToSize_ofNat (c M : Nat) (hc : c < 2 ^ 24) (hM : M < 2 ^ 24)
    (hcM : c * M < 2 ^ 24) :
    Float32.mulToSize c (Float32.ofNat M) = some (c * M) := by
  have hprod : (c : Int) * (M : Int) = ((c * M : Nat) : Int) := by push_cast; rfl
  have hmant : (Float32.mul (Float32.ofNat c) (Float32.ofNat M)).mantissa =
      ((c * M : Nat) : Int) := by
    simp only [Float32.mul, Float32.ofNat, round24_of_lt c hc, round24_of_lt M hM, hprod,
      Int.natAbs_ofNat, round24_of_lt (c * M) hcM]
    exact Int.sign_mul_natAbs _
  have hexp : (Float32.mul (Float32.ofNat c) (Float32.ofNat M)).exponent = 0 := by
    simp [Float32.mul, Float32.ofNat]
  have htrunc : Float32.trunc (Float32.mul (Float32.ofNat c) (Float32.ofNat M)) =
      ((c * M : Nat) : Int) := by
    simp only [Float32.trunc, hmant, hexp]
    simp
  have hrange : (0 : Int) ≤ ((c * M : Nat) : Int) ∧ ((c * M : Nat) : Int) < 2 ^ 64 := by
    constructor
    · omega
    · have : c * M < 2 ^ 64 := Nat.lt_of_lt_of_le hcM (by norm_num)
      exact_mod_cast this
  simp only [Float32.mulToSize, Float32.toSize, htrunc, hrange, and_self, if_true,
    Int.toNat_ofNat]

/-- The integer part of a nonnegative `float` is the floor of its value. -/
theorem trunc_eq_floor (m : Nat) (e : Int) :
    Float32.trunc ⟨(m : Int), e⟩ = ⌊Float32.toRat ⟨(m : Int), e⟩⌋ := by
  unfold Float32.trunc Float32.toRat
  by_cases he : 0 ≤ e
  · obtain ⟨k, rfl⟩ := Int.eq_ofNat_of_zero_le he
    simp only [he, if_true, Int.toNat_ofNat, zpow_natCast]
    have : ((m : Int) : ℚ) * (2 : ℚ) ^ k = (((m : Int) * 2 ^ k : Int) : ℚ) := by push_cast; rfl
    rw [this, Int.floor_intCast]
  · have hneg : e < 0 := by omega
    obtain ⟨k, hk⟩ := Int.eq_ofNat_of_zero_le (show 0 ≤ -e by omega)
    have he' : e = -(k : Int) := by omega
    subst he'
    simp only [he, if_false, neg_neg, Int.toNat_ofNat, zpow_neg, zpow_natCast]
    have h1 : ((m : Int) : ℚ) * ((2 : ℚ) ^ k)⁻¹ = ((m : Int) : ℚ) / ((2 ^ k : Nat) : ℚ) := by
      push_cast; rw [div_eq_mul_inv]
    rw [h1, Rat.floor_intCast_div_natCast]
    have h2 : ((2 : Int) ^ k) = ((2 ^ k : Nat) : Int) := by push_cast; rfl
    rw [h2, Int.tdiv_eq_ediv (by omega) (Int.ofNat_nonneg _)]


/-- While the capacity and its product with the mantissa of the multiplier stay
below `2 ^ 24`, the value the code computes is the exact product of the capacity
and the multiplier, truncated. -/
theorem mulToSize_eq_floor (c m : Nat) (e : Int) (hc : c < 2 ^ 24) (hcm : c * m < 2 ^ 24)
    (hrange : ⌊(c : ℚ) * Float32.toRat ⟨(m : Int), e⟩⌋₊ < 2 ^ 64) :
    Float32.mulToSize c ⟨(m : Int), e⟩ = some ⌊(c : ℚ) * Float32.toRat ⟨(m : Int), e⟩⌋₊ := by
  have hprod : (c : Int) * (m : Int) = ((c * m : Nat) : Int) := by push_cast; rfl
  have hmul : Float32.mul (Float32.ofNat c) ⟨(m : Int), e⟩ = ⟨((c * m : Nat) : Int), e⟩ := by
    simp only [Float32.mul, Float32.ofNat, round24_of_lt c hc, hprod, Int.natAbs_ofNat,
      round24_of_lt (c * m) hcm, zero_add]
    have h := Int.sign_mul_natAbs ((c * m : Nat) : Int)
    rw [Int.natAbs_ofNat] at h
    rw [h]
  have hval : Float32.toRat ⟨((c * m : Nat) : Int), e⟩ =
      (c : ℚ) * Float32.toRat ⟨(m : Int), e⟩ := by
    simp only [Float32.toRat]; push_cast; ring
  have hnonneg : (0 : ℚ) ≤ (c : ℚ) * Float32.toRat ⟨(m : Int), e⟩ := by
    simp only [Float32.toRat]; positivity
  have htrunc : Float32.trunc ⟨((c * m : Nat) : Int), e⟩ =
      ((⌊(c : ℚ) * Float32.toRat ⟨(m : Int), e⟩⌋₊ : Nat) : Int) := by
    rw [trunc_eq_floor, hval, Int.natCast_floor_eq_floor hnonneg]
  simp only [Float32.mulToSize, Float32.toSize, hmul, htrunc, Int.toNat_ofNat]
  have h1 : (0 : Int) ≤ ((⌊(c : ℚ) * Float32.toRat ⟨(m : Int), e⟩⌋₊ : Nat) : Int) := by omega
  have h2 : ((⌊(c : ℚ) * Float32.toRat ⟨(m : Int), e⟩⌋₊ : Nat) : Int) < 2 ^ 64 := by
    exact_mod_cast hrange
  simp only [h1, h2, and_self, if_true]

theorem mulToSize_zero (f : Float32) : Float32.mulToSize 0 f = some 0 := by
  have hmul : Float32.mul (Float32.ofNat 0) f = ⟨0, f.exponent⟩ := by
    simp [Float32.mul, Float32.ofNat, Float32.round24]
  have htrunc : Float32.trunc ⟨0, f.exponent⟩ = 0 := by
    simp [Float32.trunc]
  simp [Float32.mulToSize, Float32.toSize, hmul, htrunc]

end Float32

/-! ## The memory operations -/

namespace Memory

variable {T : Type}

theorem deref_eq_some {mem : Memory T} {p : Option Nat} {slots : Buffer T} :
    mem.deref p = some slots ↔ ∃ a, p = some a ∧ mem.buffers[a]? = some (some slots) := by
  cases p with
  | none => simp [deref]
  | some a =>
    simp only [deref]
    constructor
    · intro h
      refine ⟨a, rfl, ?_⟩
      split at h
      · next s hs => simpa [hs] using h
      · cases h
    · rintro ⟨b, hb, h⟩
      cases hb
      simp [h]

theorem Allocate_of_ok (mem : Memory T) (al count : Nat)
    (hok : mem.willFail.head? ≠ some true) :
    mem.Allocate al count =
      (some mem.buffers.length,
       { mem with buffers := mem.buffers ++ [some (List.replicate count none)],
                  calls := mem.calls ++
                    [Call.Allocate al count (some mem.buffers.length)],
                  willFail := mem.willFail.tail }) := by
  unfold Allocate
  split
  · next rest h => simp [h] at hok
  · rfl

theorem Allocate_of_fail (mem : Memory T) (al count : Nat)
    (hfail : mem.willFail.head? = some true) :
    mem.Allocate al count =
      (none, { mem with calls := mem.calls ++ [Call.Allocate al count none],
                        willFail := mem.willFail.tail }) := by
  unfold Allocate
  split
  · next rest h => simp [h]
  · next h =>
    exfalso
    cases hw : mem.willFail with
    | nil => simp [hw] at hfail
    | cons b rest =>
      simp [hw] at hfail
      exact h rest (by rw [hw, hfail])

end Memory

/-! ## What the member functions return -/

namespace List

variable {T : Type}

theorem not_mem_tail {xs : Sequence Bool} (h : true ∉ xs) : true ∉ xs.tail :=
  fun ht => h (List.mem_of_mem_tail ht)

theorem head_ne_true_of_not_mem {xs : Sequence Bool} (h : true ∉ xs) : xs.head? ≠ some true := by
  intro hh
  exact h (List.mem_of_mem_head? hh)

theorem ctor_returns (mem : Memory T) (al capacity size : Nat) (m : Float32)
    (hok : mem.willFail.head? ≠ some true) :
    ∃ mem1 : Memory T,
      ctor mem (some al) capacity size m = Outcome.returned
        { m_Data := some mem.buffers.length, m_Allocator := some al, m_Capacity := capacity,
          m_Size := size, m_IncreaseCapacityMultiplier := m } mem1 ∧
      mem1.deref (some mem.buffers.length) = some (List.replicate capacity none) ∧
      mem1.calls = mem.calls ++ [Call.Allocate al capacity (some mem.buffers.length)] ∧
      mem1.willFail = mem.willFail.tail ∧ mem1.sizeofType = mem.sizeofType := by
  simp only [ctor, Memory.Allocate_of_ok mem al capacity hok]
  refine ⟨_, rfl, ?_, rfl, rfl, rfl⟩
  simp [Memory.deref]

theorem SetCapacity_returns (l : List) (mem : Memory T) (c al : Nat) (buf : Buffer T)
    (hal : l.m_Allocator = some al) (hbuf : l.contents mem = some buf)
    (hlen : buf.length = l.m_Capacity) (hok : mem.willFail.head? ≠ some true) :
    ∃ mem1 : Memory T,
      l.SetCapacity mem c = Outcome.returned ()
        ({ l with m_Data := some mem.buffers.length, m_Capacity := c,
                  m_Size := if c < l.m_Capacity ∧ c < l.m_Size then c else l.m_Size },
         mem1) ∧
      mem1.deref (some mem.buffers.length) =
        some (buf.take c ++ List.replicate (c - l.m_Capacity) none) ∧
      mem1.calls = mem.calls ++ [Call.Allocate al c (some mem.buffers.length),
                                 Call.Free al l.m_Data (l.m_Capacity * mem.sizeofType)] ∧
      mem1.willFail = mem.willFail.tail ∧ mem1.sizeofType = mem.sizeofType := by
  obtain ⟨a, hpa, hba⟩ := Memory.deref_eq_some.mp hbuf
  have halt : a < mem.buffers.length := by
    by_contra hge
    rw [List.getElem?_eq_none (Nat.le_of_not_lt hge)] at hba
    cases hba
  have hne : mem.buffers.length ≠ a := Nat.ne_of_gt halt
  have hsrc : (mem.buffers ++ [some (List.replicate c (none : Option T))])[a]? =
      some (some buf) := by
    rw [List.getElem?_append_left halt]; exact hba
  have hdst : (mem.buffers ++ [some (List.replicate c (none : Option T))])[mem.buffers.length]? =
      some (some (List.replicate c none)) := by
    simp
  unfold SetCapacity
  rw [hal]
  simp only [Memory.Allocate_of_ok mem al c hok]
  by_cases hc : c < l.m_Capacity
  · have hcond : 0 + c ≤ List.length buf ∧
        0 + c ≤ (List.replicate c (none : Option T)).length ∧
        ¬ (mem.buffers.length = a ∧ 0 < 0 + c ∧ 0 < 0 + c) := by
      refine ⟨by omega, by simp, fun h => hne h.1⟩
    simp only [hc, if_true, Memory.memcpy, Memory.deref, hpa, hsrc, hdst, hcond, true_and,
      gt_iff_lt]
    refine ⟨_, rfl, ?_, by simp [Memory.Free], rfl, rfl⟩
    simp only [Memory.Free]
    rw [List.getElem?_set_ne (Ne.symm hne), List.getElem?_set_self (by simp)]
    have h0 : c - l.m_Capacity = 0 := by omega
    simp [h0]
  · have hcond : 0 + l.m_Capacity ≤ List.length buf ∧
        0 + l.m_Capacity ≤ (List.replicate c (none : Option T)).length ∧
        ¬ (mem.buffers.length = a ∧ 0 < 0 + l.m_Capacity ∧ 0 < 0 + l.m_Capacity) := by
      refine ⟨by omega, by simp; omega, fun h => hne h.1⟩
    simp only [hc, if_false, Memory.memcpy, Memory.deref, hpa, hsrc, hdst, hcond, false_and,
      if_true]
    refine ⟨_, rfl, ?_, by simp [Memory.Free], rfl, rfl⟩
    simp only [Memory.Free]
    rw [List.getElem?_set_ne (Ne.symm hne), List.getElem?_set_self (by simp)]
    have h1 : List.take c buf = buf := List.take_of_length_le (by omega)
    have h2 : List.take l.m_Capacity buf = buf := List.take_of_length_le (by omega)
    simp [h1, h2]

theorem assignSlot_returns (l : List) (mem : Memory T) (i : Nat) (v : T) (buf : Buffer T)
    (hbuf : l.contents mem = some buf) (hi : i < buf.length) :
    ∃ mem1 : Memory T,
      l.assignSlot mem i v = Outcome.returned () (l, mem1) ∧
      l.contents mem1 = some (buf.set i (some v)) ∧
      mem1.calls = mem.calls ∧ mem1.willFail = mem.willFail ∧
      mem1.sizeofType = mem.sizeofType := by
  obtain ⟨a, hpa, hba⟩ := Memory.deref_eq_some.mp hbuf
  have halt : a < mem.buffers.length := by
    by_contra hge
    rw [List.getElem?_eq_none (Nat.le_of_not_lt hge)] at hba
    cases hba
  have hd : mem.deref (some a) = some buf := by
    rw [← hpa]; exact hbuf
  simp only [assignSlot, Memory.store, hpa, hd, hi, if_true]
  refine ⟨_, rfl, ?_, rfl, rfl, rfl⟩
  simp [contents, Memory.deref, hpa, List.getElem?_set_self halt]

theorem assignSlot_undefined (l : List) (mem : Memory T) (i : Nat) (v : T) (buf : Buffer T)
    (hbuf : l.contents mem = some buf) (hi : buf.length ≤ i) :
    l.assignSlot mem i v = Outcome.undefined := by
  obtain ⟨a, hpa, -⟩ := Memory.deref_eq_some.mp hbuf
  have hd : mem.deref (some a) = some buf := by
    rw [← hpa]; exact hbuf
  simp [assignSlot, Memory.store, hpa, hd, Nat.not_lt.mpr hi]

theorem index_returns (l : List) (mem : Memory T) (i : Nat) (buf : Buffer T) (slot : Option T)
    (hbuf : l.contents mem = some buf) (hi : i < l.m_Size) (hslot : buf[i]? = some slot) :
    l.index mem i = Outcome.returned slot (l, mem) := by
  have hd : mem.deref l.m_Data = some buf := hbuf
  simp [index, ALL_ASSERT, hi, hd, hslot]

theorem Add_returns_of_room (l : List) (mem : Memory T) (v : T) (buf : Buffer T)
    (hbuf : l.contents mem = some buf) (hlen : buf.length = l.m_Capacity)
    (hroom : l.m_Size < l.m_Capacity) :
    ∃ mem1 : Memory T,
      l.Add mem v = Outcome.returned () ({ l with m_Size := l.m_Size + 1 }, mem1) ∧
      mem1.deref l.m_Data = some (buf.set l.m_Size (some v)) ∧
      mem1.calls = mem.calls ∧ mem1.willFail = mem.willFail ∧
      mem1.sizeofType = mem.sizeofType := by
  have hnot : ¬ (l.m_Size + 1 > l.m_Capacity) := by omega
  simp only [Add, hnot, if_false, Nat.add_sub_cancel]
  exact assignSlot_returns { l with m_Size := l.m_Size + 1 } mem l.m_Size v buf hbuf
    (by omega)

theorem Add_returns_of_growth (l : List) (mem : Memory T) (v : T) (buf : Buffer T)
    (al c : Nat) (hal : l.m_Allocator = some al) (hbuf : l.contents mem = some buf)
    (hlen : buf.length = l.m_Capacity) (hfull : l.m_Size = l.m_Capacity)
    (hmul : Float32.mulToSize l.m_Capacity l.m_IncreaseCapacityMultiplier = some c)
    (hc : l.m_Capacity < c) (hok : mem.willFail.head? ≠ some true) :
    ∃ mem1 : Memory T,
      l.Add mem v = Outcome.returned ()
        ({ l with m_Data := some mem.buffers.length, m_Capacity := c,
                  m_Size := l.m_Size + 1 }, mem1) ∧
      mem1.deref (some mem.buffers.length) =
        some ((buf ++ List.replicate (c - l.m_Capacity) none).set l.m_Size (some v)) ∧
      mem1.calls = mem.calls ++ [Call.Allocate al c (some mem.buffers.length),
                                 Call.Free al l.m_Data (l.m_Capacity * mem.sizeofType)] ∧
      mem1.willFail = mem.willFail.tail ∧ mem1.sizeofType = mem.sizeofType := by
  have hgt : l.m_Size + 1 > l.m_Capacity := by omega
  obtain ⟨mem2, hset, hd2, hcalls2, hfail2, hsz2⟩ :=
    SetCapacity_returns { l with m_Size := l.m_Size + 1 } mem c al buf hal hbuf hlen hok
  have hnc : ¬ (c < l.m_Capacity ∧ c < l.m_Size + 1) := by omega
  simp only [hnc, if_false] at hset
  have htake : List.take c buf = buf := List.take_of_length_le (by omega)
  rw [htake] at hd2
  obtain ⟨mem1, hassign, hd1, hcalls1, hfail1, hsz1⟩ :=
    assignSlot_returns
      { l with m_Data := some mem.buffers.length, m_Capacity := c, m_Size := l.m_Size + 1 }
      mem2 l.m_Size v _ hd2 (by simp; omega)
  refine ⟨mem1, ?_, hd1, by rw [hcalls1, hcalls2], by rw [hfail1, hfail2],
    by rw [hsz1, hsz2]⟩
  simp only [Add, hgt, if_true, IncreaseCapacity, hmul, hset, Nat.add_sub_cancel]
  exact hassign

/-- A List of capacity 0 never grows: whatever the multiplier, the first `Add`
reallocates with capacity `0 * multiplier = 0` and stores outside the empty
buffer. -/
theorem Add_undefined_of_capacity_zero (l : List) (mem : Memory T) (v : T) (al : Nat)
    (hal : l.m_Allocator = some al) (hbuf : l.contents mem = some [])
    (hcap : l.m_Capacity = 0) (hsize : l.m_Size = 0)
    (hok : mem.willFail.head? ≠ some true) :
    l.Add mem v = Outcome.undefined := by
  obtain ⟨mem1, hset, hd, -, -, -⟩ :=
    SetCapacity_returns { l with m_Size := l.m_Size + 1 } mem 0 al [] hal hbuf
      (by simp [hcap]) hok
  have hmul : Float32.mulToSize l.m_Capacity l.m_IncreaseCapacityMultiplier = some 0 := by
    rw [hcap]; exact Float32.mulToSize_zero _
  have hgt : l.m_Size + 1 > l.m_Capacity := by omega
  simp only [Add, hgt, if_true, IncreaseCapacity, hmul, hset]
  exact assignSlot_undefined _ mem1 _ v _ hd (by simp)

theorem Remove_returns (l : List) (mem : Memory T) (i : Nat) (buf : Buffer T)
    (hbuf : l.contents mem = some buf) (hlen : buf.length = l.m_Capacity)
    (hsz : l.m_Size ≤ l.m_Capacity) (hi : i < l.m_Size) (hlast : l.m_Size ≤ i + 2) :
    ∃ mem1 : Memory T,
      l.Remove mem i = Outcome.returned () ({ l with m_Size := l.m_Size - 1 }, mem1) ∧
      mem1.deref l.m_Data =
        some (buf.take i ++ (buf.drop (i + 1)).take (l.m_Size - 1 - i) ++
              buf.drop (l.m_Size - 1)) ∧
      mem1.calls = mem.calls ∧ mem1.willFail = mem.willFail ∧
      mem1.sizeofType = mem.sizeofType := by
  obtain ⟨a, hpa, hba⟩ := Memory.deref_eq_some.mp hbuf
  have halt : a < mem.buffers.length := by
    by_contra hge
    rw [List.getElem?_eq_none (Nat.le_of_not_lt hge)] at hba
    cases hba
  have hd : mem.deref (some a) = some buf := by
    rw [← hpa]; exact hbuf
  have hc1 : i + 1 + (l.m_Size - 1 - i) ≤ List.length buf := by omega
  have hc2 : l.m_Size - 1 ≤ List.length buf := by omega
  have hidx : i + (l.m_Size - 1 - i) = l.m_Size - 1 := by omega
  have hc3 : ¬ (i < i + 1 + (l.m_Size - 1 - i) ∧ i + 1 < l.m_Size - 1) := by omega
  simp only [Remove, ALL_ASSERT, hi, decide_True, if_true, Memory.memcpy, hpa, hd, hidx,
    hc1, hc2, hc3, true_and, not_false_eq_true, and_self]
  refine ⟨_, rfl, ?_, rfl, rfl, rfl⟩
  simp [Memory.deref, List.getElem?_set_self halt]

theorem getElem_erased_below (buf : Buffer T) (i n j : Nat) (hj : j < i)
    (hi : i ≤ buf.length) :
    (buf.take i ++ (buf.drop (i + 1)).take n ++ buf.drop (i + n))[j]? = buf[j]? := by
  rw [List.append_assoc, List.getElem?_append_left (by simp; omega)]
  rw [List.getElem?_take_of_lt hj]

theorem getElem_erased_above (buf : Buffer T) (i n j : Nat) (hij : i ≤ j) (hj : j < i + n)
    (hn : i + 1 + n ≤ buf.length) :
    (buf.take i ++ (buf.drop (i + 1)).take n ++ buf.drop (i + n))[j]? = buf[j + 1]? := by
  have h1 : (buf.take i).length = i := by simp; omega
  have h2 : ((buf.drop (i + 1)).take n).length = n := by simp; omega
  rw [List.getElem?_append_left (by simp; omega),
    List.getElem?_append_right (by omega), h1,
    List.getElem?_take_of_lt (by omega), List.getElem?_drop]
  congr 1
  omega

theorem addAll_growth (C M al : Nat) (hC : 1 ≤ C) (hM : 2 ≤ M) (vs : Sequence T) :
    ∀ (l : List) (mem : Memory T) (buf : Buffer T) (k : Nat),
      l.m_Allocator = some al → l.contents mem = some buf → buf.length = l.m_Capacity →
      l.m_IncreaseCapacityMultiplier = Float32.ofNat M → true ∉ mem.willFail →
      l.m_Capacity = C * M ^ k → l.m_Size ≤ l.m_Capacity →
      (k = 0 ∨ C * M ^ (k - 1) < l.m_Size) →
      (l.m_Size + vs.length) * M ≤ 2 ^ 24 →
      ∃ (l1 : List) (mem1 : Memory T) (k1 : Nat),
        l.addAll mem vs = Outcome.returned () (l1, mem1) ∧
        l1.m_Size = l.m_Size + vs.length ∧ l1.m_Capacity = C * M ^ k1 ∧
        l1.m_Size ≤ l1.m_Capacity ∧ (k1 = 0 ∨ C * M ^ (k1 - 1) < l1.m_Size) := by
  induction vs with
  | nil =>
    intro l mem buf k _ _ _ _ _ hcap hsz hmin _
    exact ⟨l, mem, k, rfl, rfl, hcap, hsz, hmin⟩
  | cons v vs ih =>
    intro l mem buf k hal hbuf hlen hmul hok hcap hsz hmin hbound
    have hbound1 : (l.m_Size + 1 + vs.length) * M ≤ 2 ^ 24 := by
      have : l.m_Size + (v :: vs).length = l.m_Size + 1 + vs.length := by
        simp only [List.length_cons]; omega
      rw [← this]; exact hbound
    rcases Nat.lt_or_ge l.m_Size l.m_Capacity with hroom | hfull
    · obtain ⟨mem1, hadd, hd, -, hfail, -⟩ := Add_returns_of_room l mem v buf hbuf hlen hroom
      obtain ⟨l2, mem2, k2, hrun, hs2, hc2, hle2, hmin2⟩ :=
        ih { l with m_Size := l.m_Size + 1 } mem1 (buf.set l.m_Size (some v)) k hal hd
          (by simpa using hlen) hmul (by rw [hfail]; exact hok) hcap (by simpa using hroom)
          (by rcases hmin with h | h
              · exact Or.inl h
              · exact Or.inr (by simp only; omega))
          hbound1
      refine ⟨l2, mem2, k2, ?_, ?_, hc2, hle2, hmin2⟩
      · simp only [addAll, hadd]; exact hrun
      · rw [hs2]; simp only [List.length_cons]; omega
    · have hfull : l.m_Size = l.m_Capacity := Nat.le_antisymm hsz hfull
      have hpos : 1 ≤ l.m_Capacity := by
        rw [hcap]; exact Nat.mul_pos hC (Nat.pow_pos (by omega))
      have hlt : l.m_Capacity < l.m_Capacity * M := by
        have h2 : l.m_Capacity * 2 ≤ l.m_Capacity * M := Nat.mul_le_mul_left _ hM
        omega
      have hstep : l.m_Capacity * M + M ≤ 2 ^ 24 := by
        have h1 : (l.m_Capacity + 1) * M ≤ (l.m_Size + 1 + vs.length) * M :=
          Nat.mul_le_mul_right _ (by omega)
        rw [Nat.add_mul, Nat.one_mul] at h1
        omega
      have hcM : l.m_Capacity * M < 2 ^ 24 := by omega
      have hM24 : M < 2 ^ 24 := by
        have : 1 * M ≤ l.m_Capacity * M := Nat.mul_le_mul_right _ hpos
        omega
      have hc24 : l.m_Capacity < 2 ^ 24 := by omega
      obtain ⟨mem1, hadd, hd, -, hfail, -⟩ :=
        Add_returns_of_growth l mem v buf al (l.m_Capacity * M) hal hbuf hlen hfull
          (by rw [hmul]; exact Float32.mulToSize_ofNat _ _ hc24 hM24 hcM) hlt
          (head_ne_true_of_not_mem hok)
      obtain ⟨l2, mem2, k2, hrun, hs2, hc2, hle2, hmin2⟩ :=
        ih { l with m_Data := some mem.buffers.length, m_Capacity := l.m_Capacity * M,
                    m_Size := l.m_Size + 1 } mem1 _ (k + 1) hal hd
          (by simp; omega) hmul (by rw [hfail]; exact not_mem_tail hok)
          (by simp only; rw [hcap, pow_succ]; ring) (by simp only; omega)
          (Or.inr (by simp only [Nat.add_sub_cancel]; omega))
          hbound1
      refine ⟨l2, mem2, k2, ?_, ?_, hc2, hle2, hmin2⟩
      · simp only [addAll, hadd]; exact hrun
      · rw [hs2]; simp only [List.length_cons]; omega

theorem Insert_asserted_iff (l : List) (mem : Memory T) (i : Nat) (v : T)
    (st : List × Memory T) :
    l.Insert mem i v = Outcome.asserted st ↔ l.m_Size ≤ i ∧ st = (l, mem) := by
  by_cases hi : i < l.m_Size
  · have hno : ¬ l.m_Size ≤ i := by omega
    simp only [Insert, ALL_ASSERT, hi, decide_True, if_true, hno, false_and, iff_false,
      assignSlot]
    split <;> simp
  · have hle : l.m_Size ≤ i := by omega
    simp only [Insert, ALL_ASSERT, hi, decide_False, hle, true_and]
    constructor
    · intro h; injection h with h; exact h.symm
    · intro h; rw [h]; rfl

theorem Remove_asserted_iff (l : List) (mem : Memory T) (i : Nat) (st : List × Memory T) :
    l.Remove mem i = Outcome.asserted st ↔ l.m_Size ≤ i ∧ st = (l, mem) := by
  by_cases hi : i < l.m_Size
  · have hno : ¬ l.m_Size ≤ i := by omega
    simp only [Remove, ALL_ASSERT, hi, decide_True, if_true, hno, false_and, iff_false]
    split <;> simp
  · have hle : l.m_Size ≤ i := by omega
    simp only [Remove, ALL_ASSERT, hi, decide_False, hle, true_and]
    constructor
    · intro h; injection h with h; exact h.symm
    · intro h; rw [h]; rfl

theorem index_asserted_iff (l : List) (mem : Memory T) (i : Nat) (st : List × Memory T) :
    l.index mem i = Outcome.asserted st ↔ l.m_Size ≤ i ∧ st = (l, mem) := by
  by_cases hi : i < l.m_Size
  · have hno : ¬ l.m_Size ≤ i := by omega
    simp only [index, ALL_ASSERT, hi, decide_True, if_true, hno, false_and, iff_false]
    split
    · simp
    · split <;> simp
  · have hle : l.m_Size ≤ i := by omega
    simp only [index, ALL_ASSERT, hi, decide_False, hle, true_and]
    constructor
    · intro h; injection h with h; exact h.symm
    · intro h; rw [h]; rfl

end List

/-! ## The capacity invariant under `Add` -/

/-- Claim C1, at its failing input.  A List constructed with capacity 1 and
multiplier `1.5f` holds one element after the first `Add`, so `m_Size ≤ m_Capacity`
and the multiplier exceeds 1.  In the second `Add` the size becomes 2,
`IncreaseCapacity` reallocates with the truncated product 1 as the new capacity,
which leaves `m_Capacity < m_Size`, and the store to slot 1 then falls outside the
one-slot buffer. -/
theorem C1_Add_breaks_capacity_invariant :
    ∃ (l0 : List) (m0 : Memory Nat) (l1 : List) (m1 : Memory Nat)
      (l2 : List) (m2 : Memory Nat),
      List.ctor emptyMemory (some 7) 1 0 oneAndAHalf = Outcome.returned l0 m0 ∧
      l0.Add m0 10 = Outcome.returned () (l1, m1) ∧
      l1.m_Size ≤ l1.m_Capacity ∧ 1 < l1.m_IncreaseCapacityMultiplier.toRat ∧
      List.IncreaseCapacity { l1 with m_Size := l1.m_Size + 1 } m1 =
        Outcome.returned () (l2, m2) ∧
      l2.m_Capacity < l2.m_Size ∧
      l1.Add m1 20 = Outcome.undefined :=
  ⟨_, _, _, _, _, _, rfl, rfl, by decide, by norm_num [Float32.toRat, oneAndAHalf], rfl,
   by decide, rfl⟩

/-! ## `Add` -/

namespace List

variable {T : Type}

/-- Claim C2.  Let a List own a live buffer of `m_Capacity` slots, and let either
`m_Size < m_Capacity`, or `m_Size = m_Capacity` with the product
`m_Capacity * m_IncreaseCapacityMultiplier`, truncated to the `size_t` value
`grown`, greater than `m_Capacity` (the allocator being present and granting the
request).  Then `Add(v)` returns, the size is the old size plus one, slot
`size - 1` holds `v`, every slot below the old size is unchanged, and the
capacity is unchanged in the first case and equal to the truncated product in
the second. -/
theorem C2_Add_appends (l : List) (mem : Memory T) (buf : Buffer T) (v : T) (grown : Nat)
    (hbuf : l.contents mem = some buf) (hlen : buf.length = l.m_Capacity)
    (hcase : l.m_Size < l.m_Capacity ∨
      (l.m_Size = l.m_Capacity ∧
       Float32.mulToSize l.m_Capacity l.m_IncreaseCapacityMultiplier = some grown ∧
       l.m_Capacity < grown ∧
       l.m_Allocator ≠ none ∧ mem.willFail.head? ≠ some true)) :
    ∃ (l1 : List) (mem1 : Memory T) (buf1 : Buffer T),
      l.Add mem v = Outcome.returned () (l1, mem1) ∧
      l1.contents mem1 = some buf1 ∧
      l1.m_Size = l.m_Size + 1 ∧
      buf1[l1.m_Size - 1]? = some (some v) ∧
      (∀ j, j < l.m_Size → buf1[j]? = buf[j]?) ∧
      (l.m_Size < l.m_Capacity → l1.m_Capacity = l.m_Capacity) ∧
      (l.m_Size = l.m_Capacity → l1.m_Capacity = grown) := by
  rcases hcase with hroom | ⟨hfull, hmul, hc, hal, hok⟩
  · obtain ⟨mem1, hadd, hd, -, -, -⟩ := Add_returns_of_room l mem v buf hbuf hlen hroom
    refine ⟨_, mem1, _, hadd, hd, rfl, ?_, ?_, fun _ => rfl, fun h => by omega⟩
    · simp only [Nat.add_sub_cancel]
      rw [List.getElem?_set_self (by omega)]
    · intro j hj
      rw [List.getElem?_set_ne (by omega)]
  · obtain ⟨al, hal⟩ := Option.ne_none_iff_exists'.mp hal
    obtain ⟨mem1, hadd, hd, -, -, -⟩ :=
      Add_returns_of_growth l mem v buf al _ hal hbuf hlen hfull hmul hc hok
    refine ⟨_, mem1, _, hadd, hd, rfl, ?_, ?_, fun h => by omega, fun _ => ?_⟩
    · simp only [Nat.add_sub_cancel]
      rw [List.getElem?_set_self (by simp; omega)]
    · intro j hj
      rw [List.getElem?_set_ne (by omega), List.getElem?_append_left (by omega)]
    · rfl

end List

/-- Witness of claim C2: `Add(30)` on the full List grows it to capacity 4. -/
theorem C2_Add_appends_witness :
    (fullList.contents fullMemory = some [some 10, some 20] ∧
      fullList.m_Size = fullList.m_Capacity ∧
      Float32.mulToSize fullList.m_Capacity fullList.m_IncreaseCapacityMultiplier =
        some 4) ∧
    ∃ (l1 : List) (mem1 : Memory Nat) (buf1 : Buffer Nat),
      fullList.Add fullMemory 30 = Outcome.returned () (l1, mem1) ∧
      l1.contents mem1 = some buf1 ∧
      l1.m_Size = fullList.m_Size + 1 ∧
      buf1[l1.m_Size - 1]? = some (some 30) ∧
      (∀ j, j < fullList.m_Size → buf1[j]? = [some 10, some 20][j]?) ∧
      (fullList.m_Size < fullList.m_Capacity → l1.m_Capacity = fullList.m_Capacity) ∧
      (fullList.m_Size = fullList.m_Capacity → l1.m_Capacity = 4) :=
  ⟨⟨rfl, rfl, by decide⟩,
   List.C2_Add_appends fullList fullMemory [some 10, some 20] 30 4 rfl rfl
     (Or.inr ⟨rfl, by decide, by decide, by decide, by decide⟩)⟩

/-! ## Capacity after repeated `Add` -/

namespace List

variable {T : Type}

/-- Claim C3, amended.  For every initial capacity `C ≥ 1`, every multiplier that
is a whole number `M ≥ 2` and every sequence of `N` values with `N * M ≤ 2 ^ 24`
(the range in which the `float` product of a capacity and `M` is exact), with an
allocator that grants every request: the constructor with capacity `C` and size 0
followed by `N` calls of `Add` returns with `m_Size = N` and
`m_Capacity = C * M ^ k` for the least `k` with `N ≤ C * M ^ k`. -/
theorem C3_capacity_after_adds (C M al : Nat) (vs : Sequence T) (mem : Memory T)
    (hC : 1 ≤ C) (hM : 2 ≤ M) (hN : vs.length * M ≤ 2 ^ 24)
    (hok : true ∉ mem.willFail) :
    ∃ (l0 : List) (mem0 : Memory T) (l1 : List) (mem1 : Memory T) (k : Nat),
      ctor mem (some al) C 0 (Float32.ofNat M) = Outcome.returned l0 mem0 ∧
      l0.addAll mem0 vs = Outcome.returned () (l1, mem1) ∧
      l1.m_Size = vs.length ∧ l1.m_Capacity = C * M ^ k ∧ vs.length ≤ C * M ^ k ∧
      ∀ j, vs.length ≤ C * M ^ j → C * M ^ k ≤ C * M ^ j := by
  obtain ⟨mem0, hctor, hd, -, hfail, -⟩ :=
    ctor_returns mem al C 0 (Float32.ofNat M) (head_ne_true_of_not_mem hok)
  obtain ⟨l1, mem1, k, hrun, hs, hc, hle, hmin⟩ :=
    addAll_growth C M al hC hM vs
      { m_Data := some mem.buffers.length, m_Allocator := some al, m_Capacity := C,
        m_Size := 0, m_IncreaseCapacityMultiplier := Float32.ofNat M }
      mem0 _ 0 rfl hd (by simp) rfl
      (by rw [hfail]; exact not_mem_tail hok) (by simp) (Nat.zero_le _) (Or.inl rfl)
      (by simpa using hN)
  simp only [Nat.zero_add] at hs
  refine ⟨_, mem0, l1, mem1, k, hctor, hrun, hs, hc, by omega, ?_⟩
  intro j hj
  apply Nat.mul_le_mul_left
  rcases hmin with h0 | hlt
  · rw [h0, pow_zero]; exact Nat.pow_pos (by omega)
  · apply Nat.pow_le_pow_right (by omega)
    by_contra hjk
    have hjk : j ≤ k - 1 := by omega
    have : C * M ^ j ≤ C * M ^ (k - 1) :=
      Nat.mul_le_mul_left _ (Nat.pow_le_pow_right (by omega) hjk)
    omega

end List

/-- Witness of claim C3 (amended): capacity 2, multiplier 2, three calls of `Add`. -/
theorem C3_capacity_after_adds_witness :
    (1 ≤ 2 ∧ [10, 20, 30].length * 2 ≤ 2 ^ 24 ∧ true ∉ emptyMemory.willFail) ∧
    ∃ (l0 : List) (mem0 : Memory Nat) (l1 : List) (mem1 : Memory Nat) (k : Nat),
      List.ctor emptyMemory (some 7) 2 0 (Float32.ofNat 2) = Outcome.returned l0 mem0 ∧
      l0.addAll mem0 [10, 20, 30] = Outcome.returned () (l1, mem1) ∧
      l1.m_Size = [10, 20, 30].length ∧ l1.m_Capacity = 2 * 2 ^ k ∧
      [10, 20, 30].length ≤ 2 * 2 ^ k ∧
      ∀ j, [10, 20, 30].length ≤ 2 * 2 ^ j → 2 * 2 ^ k ≤ 2 * 2 ^ j :=
  ⟨⟨by decide, by decide, by decide⟩,
   List.C3_capacity_after_adds 2 2 7 [10, 20, 30] emptyMemory (by decide) (by decide)
     (by decide) (by decide)⟩

theorem pow_three_halves_ne_two (k : Nat) : (2 : ℚ) * (3 / 2) ^ k ≠ 4 := by
  intro h
  have h2 : ((3 : ℚ) / 2) ^ k = 2 := by linarith
  rcases Nat.lt_or_ge k 2 with hk | hk
  · interval_cases k <;> norm_num at h2
  · have h3 : ((3 : ℚ) / 2) ^ 2 ≤ (3 / 2) ^ k :=
      pow_le_pow_right₀ (by norm_num) hk
    norm_num at h3
    linarith

/-- Claim C3 fails as stated.  With initial capacity 2 and multiplier `1.5f`, four
calls of `Add` return with size 4 and capacity 4 (2, then 3, then 4 for the
truncated 4.5), and 4 is not of the form `2 * 1.5 ^ k`. -/
theorem C3_counterexample_truncated_growth :
    ∃ (l0 : List) (m0 : Memory Nat) (l1 : List) (m1 : Memory Nat),
      (1 : ℚ) < oneAndAHalf.toRat ∧
      List.ctor emptyMemory (some 7) 2 0 oneAndAHalf = Outcome.returned l0 m0 ∧
      l0.addAll m0 [10, 20, 30, 40] = Outcome.returned () (l1, m1) ∧
      l1.m_Size = 4 ∧ l1.m_Capacity = 4 ∧
      ¬ ∃ k : Nat, (l1.m_Capacity : ℚ) = 2 * oneAndAHalf.toRat ^ k := by
  refine ⟨_, _, _, _, by norm_num [Float32.toRat, oneAndAHalf], rfl, rfl, rfl, rfl, ?_⟩
  rintro ⟨k, hk⟩
  have h : oneAndAHalf.toRat = 3 / 2 := by norm_num [Float32.toRat, oneAndAHalf]
  rw [h] at hk
  exact pow_three_halves_ne_two k (by simpa using hk.symm)

/-! ## `Remove` -/

namespace List

variable {T : Type}

/-- Where the `memcpy` of `Remove` moves at most one element, that is, for the last
element and the last but one, its two ranges do not overlap: `Remove(i)` returns,
the size has decreased by one, the slots below `i` are unchanged, slot `i` holds
what slot `i + 1` held, and the capacity is unchanged. -/
theorem Remove_erases_of_no_overlap (l : List) (mem : Memory T) (buf : Buffer T) (i : Nat)
    (hbuf : l.contents mem = some buf) (hlen : buf.length = l.m_Capacity)
    (hsz : l.m_Size ≤ l.m_Capacity) (hi : i < l.m_Size) (hlast : l.m_Size ≤ i + 2) :
    ∃ (l1 : List) (mem1 : Memory T) (buf1 : Buffer T),
      l.Remove mem i = Outcome.returned () (l1, mem1) ∧
      l1.contents mem1 = some buf1 ∧
      l1.m_Size + 1 = l.m_Size ∧
      (∀ j, j < i → buf1[j]? = buf[j]?) ∧
      (∀ j, i ≤ j → j < l1.m_Size → buf1[j]? = buf[j + 1]?) ∧
      l1.m_Capacity = l.m_Capacity ∧
      buf1.take l1.m_Size = (buf.take l.m_Size).eraseIdx i := by
  obtain ⟨mem1, hrem, hd, -, -, -⟩ := Remove_returns l mem i buf hbuf hlen hsz hi hlast
  have hn : l.m_Size - 1 = i + (l.m_Size - 1 - i) := by omega
  refine ⟨_, mem1, _, hrem, hd, by simp only; omega, ?_, ?_, rfl, ?_⟩
  · intro j hj
    have := getElem_erased_below buf i (l.m_Size - 1 - i) j hj (by omega)
    rw [← hn] at this
    exact this
  · intro j hij hj
    have := getElem_erased_above buf i (l.m_Size - 1 - i) j hij (by simp only at hj; omega)
      (by omega)
    rw [← hn] at this
    exact this
  · simp only
    rw [List.eraseIdx_eq_take_drop_succ, List.take_take, List.drop_take]
    have h1 : (buf.take i ++ (buf.drop (i + 1)).take (l.m_Size - 1 - i)).length =
        l.m_Size - 1 := by
      simp; omega
    rw [List.take_append_eq_append_take, h1, Nat.sub_self, List.take_zero, List.append_nil,
      List.take_of_length_le (Nat.le_of_eq h1)]
    have h2 : min i l.m_Size = i := by omega
    have h3 : l.m_Size - (i + 1) = l.m_Size - 1 - i := by omega
    rw [h2, h3]

/-- With two or more elements behind position `i`, `Remove(i)` passes overlapping
ranges to `std::memcpy`: its behaviour is undefined, whatever the List. -/
theorem Remove_undefined_of_overlap (l : List) (mem : Memory T) (i : Nat)
    (hi : i + 2 < l.m_Size) : l.Remove mem i = Outcome.undefined := by
  have hi1 : i < l.m_Size := by omega
  have hnone : mem.memcpy l.m_Data i l.m_Data (i + 1) (l.m_Size - 1 - i) = none := by
    unfold Memory.memcpy
    split
    · next d s dslots sslots hd hs _ _ =>
      have hds : d = s := by
        rw [hd] at hs
        injection hs
      have hover : d = s ∧ i < i + 1 + (l.m_Size - 1 - i) ∧ i + 1 < i + (l.m_Size - 1 - i) :=
        ⟨hds, by omega, by omega⟩
      rw [if_neg]
      intro hcond
      exact hcond.2.2 hover
    · rfl
  simp only [Remove, ALL_ASSERT, hi1, decide_True, if_true, hnone]

end List

/-- Claim C4, at its failing input.  A List of capacity 4 holds 10, 20 and 30, so
`m_Size ≤ m_Capacity` and the index 0 is below the size.  `Remove(0)` passes the
assertion and calls `std::memcpy(m_Data, m_Data + 1, 2 * sizeof(Type))`: the
ranges of slots 0 to 1 and 1 to 2 overlap, which is undefined behaviour. -/
theorem C4_Remove_overlapping_memcpy :
    ∃ (l0 : List) (m0 : Memory Nat) (l3 : List) (m3 : Memory Nat),
      List.ctor emptyMemory (some 7) 4 0 (Float32.ofNat 2) = Outcome.returned l0 m0 ∧
      l0.addAll m0 [10, 20, 30] = Outcome.returned () (l3, m3) ∧
      l3.contents m3 = some [some 10, some 20, some 30, none] ∧
      l3.m_Size = 3 ∧ l3.m_Capacity = 4 ∧
      l3.Remove m3 0 = Outcome.undefined :=
  ⟨_, _, _, _, rfl, rfl, rfl, rfl, rfl, rfl⟩

/-! ## `Insert` -/

namespace List

variable {T : Type}

/-- Claim C5, amended.  For a List with `m_Size ≤ m_Capacity` that owns a live buffer
of `m_Capacity` slots and an index `i < m_Size`, `Insert(i, v)` returns and is a
pure overwrite: `list[i]` then returns `v`, every other slot is unchanged, and
size and capacity are unchanged. -/
theorem C5_Insert_overwrites (l : List) (mem : Memory T) (buf : Buffer T) (i : Nat) (v : T)
    (hbuf : l.contents mem = some buf) (hlen : buf.length = l.m_Capacity)
    (hsz : l.m_Size ≤ l.m_Capacity) (hi : i < l.m_Size) :
    ∃ (l1 : List) (mem1 : Memory T) (buf1 : Buffer T),
      l.Insert mem i v = Outcome.returned () (l1, mem1) ∧
      l1.contents mem1 = some buf1 ∧
      l1.index mem1 i = Outcome.returned (some v) (l1, mem1) ∧
      (∀ j, j ≠ i → buf1[j]? = buf[j]?) ∧
      l1.m_Size = l.m_Size ∧ l1.m_Capacity = l.m_Capacity := by
  obtain ⟨mem1, hassign, hd, -, -, -⟩ := assignSlot_returns l mem i v buf hbuf (by omega)
  refine ⟨l, mem1, _, ?_, hd, ?_, ?_, rfl, rfl⟩
  · simp only [Insert, ALL_ASSERT, hi, decide_True, if_true]
    exact hassign
  · exact index_returns l mem1 i _ (some v) hd hi
      (by rw [List.getElem?_set_self (by omega)])
  · intro j hj
    rw [List.getElem?_set_ne (Ne.symm hj)]

end List

/-- Witness of claim C5 (amended): `Insert(1, 99)` on the full List. -/
theorem C5_Insert_overwrites_witness :
    (fullList.contents fullMemory = some [some 10, some 20] ∧
      fullList.m_Size ≤ fullList.m_Capacity ∧ 1 < fullList.m_Size) ∧
    ∃ (l1 : List) (mem1 : Memory Nat) (buf1 : Buffer Nat),
      fullList.Insert fullMemory 1 99 = Outcome.returned () (l1, mem1) ∧
      l1.contents mem1 = some buf1 ∧
      l1.index mem1 1 = Outcome.returned (some 99) (l1, mem1) ∧
      (∀ j, j ≠ 1 → buf1[j]? = [some 10, some 20][j]?) ∧
      l1.m_Size = fullList.m_Size ∧ l1.m_Capacity = fullList.m_Capacity :=
  ⟨⟨rfl, by decide, by decide⟩,
   List.C5_Insert_overwrites fullList fullMemory [some 10, some 20] 1 99 rfl rfl
     (by decide) (by decide)⟩

/-- Claim C5 fails as stated.  The constructor accepts capacity 1 with size 2;
for that List the index 1 is below the size, `Insert(1, 99)` passes its
assertion and stores outside the one-slot buffer. -/
theorem C5_counterexample_Insert_beyond_capacity :
    ∃ (l : List) (m : Memory Nat),
      List.ctor emptyMemory (some 7) 1 2 oneAndAHalf = Outcome.returned l m ∧
      1 < l.m_Size ∧ l.Insert m 1 99 = Outcome.undefined :=
  ⟨_, _, rfl, by decide, rfl⟩

/-! ## `SetCapacity` and `Resize` -/

namespace List

variable {T : Type}

/-- Claim C6.  For a List with `m_Size ≤ m_Capacity` that owns a live buffer of
`m_Capacity` slots, with an allocator that grants the request,
`SetCapacity(newCapacity)` returns with `m_Capacity = newCapacity` and
`m_Size = min (old size) newCapacity`; every slot below the new size holds what it
held before, and when `newCapacity ≥ size` the size is unchanged and all live
elements are kept at their indices. -/
theorem C6_SetCapacity_reallocates (l : List) (mem : Memory T) (buf : Buffer T)
    (newCapacity : Nat) (hal : l.m_Allocator ≠ none) (hbuf : l.contents mem = some buf)
    (hlen : buf.length = l.m_Capacity) (hsz : l.m_Size ≤ l.m_Capacity)
    (hok : mem.willFail.head? ≠ some true) :
    ∃ (l1 : List) (mem1 : Memory T) (buf1 : Buffer T),
      l.SetCapacity mem newCapacity = Outcome.returned () (l1, mem1) ∧
      l1.contents mem1 = some buf1 ∧
      l1.m_Capacity = newCapacity ∧
      l1.m_Size = min l.m_Size newCapacity ∧
      (∀ j, j < l1.m_Size → buf1[j]? = buf[j]?) ∧
      (l.m_Size ≤ newCapacity →
        l1.m_Size = l.m_Size ∧ ∀ j, j < l.m_Size → buf1[j]? = buf[j]?) := by
  obtain ⟨al, hal⟩ := Option.ne_none_iff_exists'.mp hal
  obtain ⟨mem1, hset, hd, -, -, -⟩ :=
    SetCapacity_returns l mem newCapacity al buf hal hbuf hlen hok
  have hsize : (if newCapacity < l.m_Capacity ∧ newCapacity < l.m_Size then newCapacity
      else l.m_Size) = min l.m_Size newCapacity := by
    split <;> omega
  have helem : ∀ j, j < min l.m_Size newCapacity →
      (buf.take newCapacity ++ List.replicate (newCapacity - l.m_Capacity) none)[j]? =
        buf[j]? := by
    intro j hj
    rw [List.getElem?_append_left (by simp; omega), List.getElem?_take_of_lt (by omega)]
  refine ⟨_, mem1, _, hset, hd, rfl, hsize, ?_, ?_⟩
  · intro j hj
    simp only [hsize] at hj
    exact helem j hj
  · intro hle
    refine ⟨by simp only [hsize]; omega, ?_⟩
    intro j hj
    exact helem j (by omega)

/-- Claim C7.  For a List with `m_Size ≤ m_Capacity` that owns a live buffer of
`m_Capacity` slots (and, when `newSize` exceeds the capacity, an allocator that
grants the request), `Resize(newSize)` returns with `m_Size = newSize`; the
capacity is unchanged when `newSize ≤ m_Capacity` and is exactly `newSize`
otherwise, and every slot below `min (old size) newSize` is unchanged. -/
theorem C7_Resize_sets_size (l : List) (mem : Memory T) (buf : Buffer T) (newSize : Nat)
    (hbuf : l.contents mem = some buf) (hlen : buf.length = l.m_Capacity)
    (hsz : l.m_Size ≤ l.m_Capacity)
    (hgrow : l.m_Capacity < newSize →
      l.m_Allocator ≠ none ∧ mem.willFail.head? ≠ some true) :
    ∃ (l1 : List) (mem1 : Memory T) (buf1 : Buffer T),
      l.Resize mem newSize = Outcome.returned () (l1, mem1) ∧
      l1.contents mem1 = some buf1 ∧
      l1.m_Size = newSize ∧
      (newSize ≤ l.m_Capacity → l1.m_Capacity = l.m_Capacity) ∧
      (l.m_Capacity < newSize → l1.m_Capacity = newSize) ∧
      (∀ j, j < min l.m_Size newSize → buf1[j]? = buf[j]?) := by
  rcases Nat.lt_or_ge l.m_Capacity newSize with hgt | hle
  · obtain ⟨hal, hok⟩ := hgrow hgt
    obtain ⟨al, hal⟩ := Option.ne_none_iff_exists'.mp hal
    obtain ⟨mem1, hset, hd, -, -, -⟩ :=
      SetCapacity_returns l mem newSize al buf hal hbuf hlen hok
    refine ⟨{ l with m_Data := some mem.buffers.length, m_Capacity := newSize,
                     m_Size := newSize }, mem1,
      buf.take newSize ++ List.replicate (newSize - l.m_Capacity) none, ?_, ?_, ?_, ?_, ?_, ?_⟩
    · simp only [Resize, hgt, gt_iff_lt, if_true, hset]
    · exact hd
    · rfl
    · intro h; omega
    · intro _; rfl
    · intro j hj
      rw [List.getElem?_append_left (by simp; omega), List.getElem?_take_of_lt (by omega)]
  · have hnot : ¬ (newSize > l.m_Capacity) := by omega
    refine ⟨{ l with m_Size := newSize }, mem, buf, ?_, hbuf, rfl, fun _ => rfl,
      fun h => by omega, fun _ _ => rfl⟩
    simp only [Resize, hnot, if_false]

end List

/-- Witness of claim C6: `SetCapacity(1)` on the full List drops the second element. -/
theorem C6_SetCapacity_reallocates_witness :
    (fullList.m_Allocator ≠ none ∧
      fullList.contents fullMemory = some [some 10, some 20] ∧
      fullList.m_Size ≤ fullList.m_Capacity ∧ fullMemory.willFail.head? ≠ some true) ∧
    ∃ (l1 : List) (mem1 : Memory Nat) (buf1 : Buffer Nat),
      fullList.SetCapacity fullMemory 1 = Outcome.returned () (l1, mem1) ∧
      l1.contents mem1 = some buf1 ∧
      l1.m_Capacity = 1 ∧
      l1.m_Size = min fullList.m_Size 1 ∧
      (∀ j, j < l1.m_Size → buf1[j]? = [some 10, some 20][j]?) ∧
      (fullList.m_Size ≤ 1 →
        l1.m_Size = fullList.m_Size ∧
          ∀ j, j < fullList.m_Size → buf1[j]? = [some 10, some 20][j]?) :=
  ⟨⟨by decide, rfl, by decide, by decide⟩,
   List.C6_SetCapacity_reallocates fullList fullMemory [some 10, some 20] 1 (by decide) rfl
     rfl (by decide) (by decide)⟩

/-- Witness of claim C7: `Resize(5)` on the full List grows the capacity to 5. -/
theorem C7_Resize_sets_size_witness :
    (fullList.contents fullMemory = some [some 10, some 20] ∧
      fullList.m_Size ≤ fullList.m_Capacity ∧
      fullList.m_Allocator ≠ none ∧ fullMemory.willFail.head? ≠ some true) ∧
    ∃ (l1 : List) (mem1 : Memory Nat) (buf1 : Buffer Nat),
      fullList.Resize fullMemory 5 = Outcome.returned () (l1, mem1) ∧
      l1.contents mem1 = some buf1 ∧
      l1.m_Size = 5 ∧
      (5 ≤ fullList.m_Capacity → l1.m_Capacity = fullList.m_Capacity) ∧
      (fullList.m_Capacity < 5 → l1.m_Capacity = 5) ∧
      (∀ j, j < min fullList.m_Size 5 → buf1[j]? = [some 10, some 20][j]?) :=
  ⟨⟨rfl, by decide, by decide, by decide⟩,
   List.C7_Resize_sets_size fullList fullMemory [some 10, some 20] 5 rfl rfl (by decide)
     (fun _ => ⟨by decide, by decide⟩)⟩

/-! ## Moves, destruction and bounds checks -/

namespace List

variable {T : Type}

/-- Claim C8.  The move constructor and the move assignment both leave the
destination with the source's prior `m_Data`, `m_Size`, `m_Capacity`,
`m_Allocator` and `m_IncreaseCapacityMultiplier`, and leave the source with
size 0, capacity 0 and a null `m_Data`. -/
theorem C8_move_transfers_state (s d : List) :
    ((moveCtor s).1.m_Data = s.m_Data ∧ (moveCtor s).1.m_Size = s.m_Size ∧
      (moveCtor s).1.m_Capacity = s.m_Capacity ∧
      (moveCtor s).1.m_Allocator = s.m_Allocator ∧
      (moveCtor s).1.m_IncreaseCapacityMultiplier = s.m_IncreaseCapacityMultiplier) ∧
    ((moveCtor s).2.m_Size = 0 ∧ (moveCtor s).2.m_Capacity = 0 ∧
      (moveCtor s).2.m_Data = none) ∧
    ((moveAssign d s).1.m_Data = s.m_Data ∧ (moveAssign d s).1.m_Size = s.m_Size ∧
      (moveAssign d s).1.m_Capacity = s.m_Capacity ∧
      (moveAssign d s).1.m_Allocator = s.m_Allocator ∧
      (moveAssign d s).1.m_IncreaseCapacityMultiplier = s.m_IncreaseCapacityMultiplier) ∧
    ((moveAssign d s).2.m_Size = 0 ∧ (moveAssign d s).2.m_Capacity = 0 ∧
      (moveAssign d s).2.m_Data = none) :=
  ⟨⟨rfl, rfl, rfl, rfl, rfl⟩, ⟨rfl, rfl, rfl⟩, ⟨rfl, rfl, rfl, rfl, rfl⟩, ⟨rfl, rfl, rfl⟩⟩

/-- Claim C9, as the code behaves.  After a move construction or a move
assignment the source has a null `m_Allocator`, and its destructor calls `Free`
through that null pointer: the destructor of every moved-from List has
undefined behaviour instead of being a release of zero bytes. -/
theorem C9_dtor_of_moved_from_is_undefined (s d : List) (mem : Memory T) :
    ((moveCtor s).2.m_Allocator = none ∧ (moveCtor s).2.dtor mem = Outcome.undefined) ∧
    ((moveAssign d s).2.m_Allocator = none ∧
      (moveAssign d s).2.dtor mem = Outcome.undefined) :=
  ⟨⟨rfl, rfl⟩, ⟨rfl, rfl⟩⟩

/-- Claim C10.  For every List and every index, `Insert`, `Remove` and the mutable
`operator[]` stop in a failed assertion exactly when `index ≥ m_Size`, and when
they do, the object and the memory are those the call was entered with. -/
theorem C10_bounds_assertions (l : List) (mem : Memory T) (i : Nat) (v : T) :
    ((l.Insert mem i v = Outcome.asserted (l, mem) ↔ l.m_Size ≤ i) ∧
      ∀ st, l.Insert mem i v = Outcome.asserted st → st = (l, mem)) ∧
    ((l.Remove mem i = Outcome.asserted (l, mem) ↔ l.m_Size ≤ i) ∧
      ∀ st, l.Remove mem i = Outcome.asserted st → st = (l, mem)) ∧
    ((l.index mem i = Outcome.asserted (l, mem) ↔ l.m_Size ≤ i) ∧
      ∀ st, l.index mem i = Outcome.asserted st → st = (l, mem)) := by
  refine ⟨⟨?_, fun st h => ((Insert_asserted_iff l mem i v st).mp h).2⟩,
    ⟨?_, fun st h => ((Remove_asserted_iff l mem i st).mp h).2⟩,
    ⟨?_, fun st h => ((index_asserted_iff l mem i st).mp h).2⟩⟩
  · rw [Insert_asserted_iff]; simp
  · rw [Remove_asserted_iff]; simp
  · rw [index_asserted_iff]; simp

end List

/-! ## Equality, read-only access and the capacity constructor -/

/-- Claim C12, as the code is written.  The operand of `return` in `operator==`
is an assignment whose left operand is the conjunction of the comparisons, a
prvalue: the expression is ill-formed, so `a == b`, and `a != b` which calls it,
do not compile and return nothing. -/
theorem C12_operatorEq_is_ill_formed :
    operatorEqReturn.wellFormed = false ∧
    (Expression.logicalAnd
      (Expression.equal (Expression.mine Member.m_Allocator)
        (Expression.theirs Member.m_Allocator))
      (Expression.mine Member.m_IncreaseCapacityMultiplier)).isModifiableLvalue = false := by
  decide

namespace List

variable {T : Type}

/-- Claim C13, as the code behaves.  The read-only `operator[]` calls itself and
never returns, whatever the List and the index: no bound on the depth of the
calls is enough. -/
theorem C13_indexConst_never_returns (fuel : Nat) (l : List) (mem : Memory T) (i : Nat) :
    l.indexConst fuel mem i = none := by
  induction fuel with
  | zero => rfl
  | succ fuel ih => exact ih

/-- Claim C18, as the code behaves.  The constructor taking an allocator and a
`size_t` capacity delegates to itself and never returns a List, whatever the
capacity: no bound on the depth of the delegation is enough. -/
theorem C18_ctorCapacity_never_returns (fuel : Nat) (mem : Memory T)
    (allocator : Option Nat) (capacity : Nat) :
    ctorCapacity fuel mem allocator capacity = none := by
  induction fuel with
  | zero => rfl
  | succ fuel ih => exact ih

/-- Claim C14.  Copy construction and copy assignment return with a List whose
`m_Data`, `m_Size`, `m_Capacity`, `m_Allocator` and `m_IncreaseCapacityMultiplier`
are those of the source; the source and the memory, buffers and call log
included, are as before, and the copy and the source refer to the same buffer. -/
theorem C14_copy_shares_buffer (s d : List) (mem : Memory T) :
    (∃ c : List, copyCtor s mem = Outcome.returned c (s, mem) ∧
      c.m_Data = s.m_Data ∧ c.m_Size = s.m_Size ∧ c.m_Capacity = s.m_Capacity ∧
      c.m_Allocator = s.m_Allocator ∧
      c.m_IncreaseCapacityMultiplier = s.m_IncreaseCapacityMultiplier ∧
      c.contents mem = s.contents mem) ∧
    (∃ d1 : List, copyAssign d s mem = Outcome.returned () ((d1, s), mem) ∧
      d1.m_Data = s.m_Data ∧ d1.m_Size = s.m_Size ∧ d1.m_Capacity = s.m_Capacity ∧
      d1.m_Allocator = s.m_Allocator ∧
      d1.m_IncreaseCapacityMultiplier = s.m_IncreaseCapacityMultiplier ∧
      d1.contents mem = s.contents mem) :=
  ⟨⟨_, rfl, rfl, rfl, rfl, rfl, rfl, rfl⟩, ⟨_, rfl, rfl, rfl, rfl, rfl, rfl, rfl⟩⟩

end List

/-- Claim C15, at its last step.  From a List constructed with capacity 2, size 0
and multiplier `2.0f`: `Add(10)` gives size 1 and capacity 2; `Add(20)` gives
size 2 and capacity 2; `Add(30)` gives capacity 4, size 3 and the elements 10,
20, 30.  `Remove(0)` then calls `std::memcpy(m_Data, m_Data + 1, 2 *
sizeof(Type))` on the overlapping ranges of slots 0 to 1 and 1 to 2: undefined
behaviour, not the elements 20, 30. -/
theorem C15_scenario_ends_in_overlapping_memcpy :
    ∃ (l0 : List) (m0 : Memory Nat) (l1 : List) (m1 : Memory Nat) (l2 : List)
      (m2 : Memory Nat) (l3 : List) (m3 : Memory Nat),
      List.ctor emptyMemory (some 7) 2 0 (Float32.ofNat 2) = Outcome.returned l0 m0 ∧
      l0.Add m0 10 = Outcome.returned () (l1, m1) ∧
      l1.m_Size = 1 ∧ l1.m_Capacity = 2 ∧
      l1.Add m1 20 = Outcome.returned () (l2, m2) ∧
      l2.m_Size = 2 ∧ l2.m_Capacity = 2 ∧
      l2.Add m2 30 = Outcome.returned () (l3, m3) ∧
      l3.m_Capacity = 4 ∧ l3.m_Size = 3 ∧
      (l3.contents m3).map (fun b => b.take l3.m_Size) = some [some 10, some 20, some 30] ∧
      l3.Remove m3 0 = Outcome.undefined :=
  ⟨_, _, _, _, _, _, _, _, rfl, rfl, rfl, rfl, rfl, rfl, rfl, rfl, rfl, rfl, rfl, rfl⟩

/-! ## Failing allocations -/

namespace List

variable {T : Type}

theorem SetCapacity_threw (l : List) (mem : Memory T) (c al : Nat)
    (hal : l.m_Allocator = some al) (hfail : mem.willFail.head? = some true) :
    l.SetCapacity mem c = Outcome.threw
      (l, { mem with calls := mem.calls ++ [Call.Allocate al c none],
                     willFail := mem.willFail.tail }) := by
  simp only [SetCapacity, hal, Memory.Allocate_of_fail mem al c hfail]

/-- Claim C16.  For a full List (`m_Size = m_Capacity`) whose growth request
reaches an allocator that refuses it, `Add(v)` lets the failure propagate and
leaves the List with the size already incremented, above the capacity, while
`m_Data`, the capacity and the buffers are as before: the List is not the one
the call was entered with. -/
theorem C16_Add_not_atomic (l : List) (mem : Memory T) (v : T) (al grown : Nat)
    (hfull : l.m_Size = l.m_Capacity) (hal : l.m_Allocator = some al)
    (hmul : Float32.mulToSize l.m_Capacity l.m_IncreaseCapacityMultiplier = some grown)
    (hfail : mem.willFail.head? = some true) :
    ∃ (l1 : List) (mem1 : Memory T),
      l.Add mem v = Outcome.threw (l1, mem1) ∧
      l1.m_Size = l.m_Size + 1 ∧ l1.m_Capacity < l1.m_Size ∧
      l1.m_Data = l.m_Data ∧ l1.m_Capacity = l.m_Capacity ∧
      mem1.buffers = mem.buffers ∧
      mem1.calls = mem.calls ++ [Call.Allocate al grown none] ∧
      l1 ≠ l := by
  have hgt : l.m_Size + 1 > l.m_Capacity := by omega
  refine ⟨{ l with m_Size := l.m_Size + 1 },
    { mem with calls := mem.calls ++ [Call.Allocate al grown none],
               willFail := mem.willFail.tail }, ?_, rfl, ?_, rfl, rfl, rfl, rfl, ?_⟩
  · simp only [Add, hgt, if_true, IncreaseCapacity, hmul]
    rw [SetCapacity_threw { l with m_Size := l.m_Size + 1 } mem grown al hal hfail]
  · simp only; omega
  · intro h
    have := congrArg List.m_Size h
    simp at this

/-- Claim C19.  When the allocator refuses the allocation that `SetCapacity`, or
`Resize` beyond the capacity, requests, the failure propagates, the List is the
one the call was entered with, the buffers are as before and the only call
issued is the refused `Allocate`: no `Free`. -/
theorem C19_SetCapacity_Resize_atomic (l : List) (mem : Memory T) (al newCapacity newSize : Nat)
    (hal : l.m_Allocator = some al) (hfail : mem.willFail.head? = some true) :
    (∃ mem1 : Memory T,
      l.SetCapacity mem newCapacity = Outcome.threw (l, mem1) ∧
      mem1.buffers = mem.buffers ∧
      mem1.calls = mem.calls ++ [Call.Allocate al newCapacity none]) ∧
    (l.m_Capacity < newSize →
      ∃ mem1 : Memory T,
        l.Resize mem newSize = Outcome.threw (l, mem1) ∧
        mem1.buffers = mem.buffers ∧
        mem1.calls = mem.calls ++ [Call.Allocate al newSize none]) := by
  refine ⟨⟨_, SetCapacity_threw l mem newCapacity al hal hfail, rfl, rfl⟩, ?_⟩
  intro hgt
  refine ⟨{ mem with calls := mem.calls ++ [Call.Allocate al newSize none],
                     willFail := mem.willFail.tail }, ?_, rfl, rfl⟩
  simp only [Resize, gt_iff_lt, hgt, if_true, SetCapacity_threw l mem newSize al hal hfail]

/-- Claim C17.  A List `s` is constructed from an allocator, `c` is copy-constructed
from `s`, and both are destroyed.  The calls the allocator has then received are
one `Allocate` and two `Free` for the buffer that `Allocate` returned, both with
the byte size of the whole buffer. -/
theorem C17_copy_is_freed_twice (mem : Memory T) (al capacity size : Nat) (m : Float32)
    (hok : mem.willFail.head? ≠ some true) :
    ∃ (s : List) (mem0 : Memory T) (c : List) (mem1 mem2 : Memory T) (a : Nat),
      ctor mem (some al) capacity size m = Outcome.returned s mem0 ∧
      copyCtor s mem0 = Outcome.returned c (s, mem0) ∧
      c.dtor mem0 = Outcome.returned () mem1 ∧
      s.dtor mem1 = Outcome.returned () mem2 ∧
      s.m_Data = some a ∧ c.m_Data = some a ∧
      mem2.calls = mem.calls ++
        [Call.Allocate al capacity (some a),
         Call.Free al (some a) (capacity * mem.sizeofType),
         Call.Free al (some a) (capacity * mem.sizeofType)] := by
  obtain ⟨mem0, hctor, -, hcalls, -, hsz⟩ := ctor_returns mem al capacity size m hok
  refine ⟨_, mem0, _, _, _, mem.buffers.length, hctor, rfl, rfl, rfl, rfl, rfl, ?_⟩
  simp [Memory.Free, hcalls, hsz]

/-- Claim C20, amended.  Let the destination `d` refer to a buffer and the source
`s` to another buffer or to none.  Move assignment and copy assignment return
with the memory, call log included, as it was, so no `Free` is issued, and
afterwards neither `d` nor `s` refers to the buffer `d` referred to. -/
theorem C20_assignment_drops_buffer (d s : List) (mem : Memory T)
    (hd : d.m_Data ≠ none) (hs : s.m_Data ≠ d.m_Data) :
    (∃ d1 s1 : List, moveAssignIn d s mem = Outcome.returned () ((d1, s1), mem) ∧
      d1.m_Data ≠ d.m_Data ∧ s1.m_Data ≠ d.m_Data) ∧
    (∃ d1 s1 : List, copyAssign d s mem = Outcome.returned () ((d1, s1), mem) ∧
      d1.m_Data ≠ d.m_Data ∧ s1.m_Data ≠ d.m_Data) :=
  ⟨⟨_, _, rfl, hs, fun h => hd h.symm⟩, ⟨_, _, rfl, hs, hs⟩⟩

end List

/-- Claim C20 fails as stated.  `c` is a copy of the full List, so both refer to
the buffer at address 0; after `d = c` and after `d = std::move(c)` the
destination still refers to its previous buffer. -/
theorem C20_counterexample_source_shares_buffer :
    ∃ (c d1 s1 d2 s2 : List),
      List.copyCtor fullList fullMemory = Outcome.returned c (fullList, fullMemory) ∧
      fullList.contents fullMemory = some [some 10, some 20] ∧
      List.copyAssign fullList c fullMemory = Outcome.returned () ((d1, s1), fullMemory) ∧
      d1.m_Data = fullList.m_Data ∧
      List.moveAssignIn fullList c fullMemory = Outcome.returned () ((d2, s2), fullMemory) ∧
      d2.m_Data = fullList.m_Data :=
  ⟨_, _, _, _, _, rfl, rfl, rfl, rfl, rfl, rfl⟩

/-! ## The release protocol -/

namespace Memory

variable {T : Type}

theorem Free_buffers_length (mem : Memory T) (al : Nat) (p : Option Nat) (bytes : Nat) :
    (mem.Free al p bytes).buffers.length = mem.buffers.length := by
  cases p <;> simp [Free]

theorem store_frame {mem mem1 : Memory T} {p : Option Nat} {i : Nat} {v : T}
    (h : mem.store p i v = some mem1) :
    mem1.calls = mem.calls ∧ mem1.buffers.length = mem.buffers.length ∧
      mem1.sizeofType = mem.sizeofType := by
  unfold store at h
  split at h
  · split at h
    · cases h; simp
    · cases h
  · cases h

theorem memcpy_frame {mem mem1 : Memory T} {dst src : Option Nat} {dstOff srcOff n : Nat}
    (h : mem.memcpy dst dstOff src srcOff n = some mem1) :
    mem1.calls = mem.calls ∧ mem1.buffers.length = mem.buffers.length ∧
      mem1.sizeofType = mem.sizeofType := by
  unfold memcpy at h
  split at h
  · split at h
    · cases h; simp
    · cases h
  · cases h

end Memory

namespace List

variable {T : Type}

theorem assignSlot_inv {l l1 : List} {mem mem1 : Memory T} {i : Nat} {v : T}
    (h : l.assignSlot mem i v = Outcome.returned () (l1, mem1)) :
    l1 = l ∧ mem1.calls = mem.calls ∧ mem1.buffers.length = mem.buffers.length ∧
      mem1.sizeofType = mem.sizeofType := by
  unfold assignSlot at h
  split at h
  · cases h
  · next mem2 hstore =>
    injection h with _ h
    injection h with h1 h2
    subst h1 h2
    exact ⟨rfl, Memory.store_frame hstore⟩

theorem SetCapacity_inv {l l1 : List} {mem mem1 : Memory T} {c : Nat}
    (h : l.SetCapacity mem c = Outcome.returned () (l1, mem1)) :
    ∃ al, l.m_Allocator = some al ∧ l1.m_Allocator = some al ∧
      l1.m_Data = some mem.buffers.length ∧ l1.m_Capacity = c ∧
      mem1.calls = mem.calls ++ [Call.Allocate al c (some mem.buffers.length),
                                 Call.Free al l.m_Data (l.m_Capacity * mem.sizeofType)] ∧
      mem1.buffers.length = mem.buffers.length + 1 ∧
      mem1.sizeofType = mem.sizeofType := by
  unfold SetCapacity at h
  split at h
  · cases h
  · next al hal =>
    by_cases hfail : mem.willFail.head? = some true
    · rw [Memory.Allocate_of_fail mem al c hfail] at h
      cases h
    · rw [Memory.Allocate_of_ok mem al c hfail] at h
      simp only at h
      split at h
      · split at h
        · cases h
        · next mem2 hcopy =>
          obtain ⟨hc, hb, hs⟩ := Memory.memcpy_frame hcopy
          injection h with _ h
          injection h with h1 h2
          subst h1 h2
          refine ⟨al, hal, hal, rfl, rfl, ?_, ?_, ?_⟩
          · simp [Memory.Free, hc]
          · rw [Memory.Free_buffers_length, hb]; simp
          · simp [Memory.Free, hs]
      · split at h
        · cases h
        · next mem2 hcopy =>
          obtain ⟨hc, hb, hs⟩ := Memory.memcpy_frame hcopy
          injection h with _ h
          injection h with h1 h2
          subst h1 h2
          refine ⟨al, hal, hal, rfl, rfl, ?_, ?_, ?_⟩
          · simp [Memory.Free, hc]
          · rw [Memory.Free_buffers_length, hb]; simp
          · simp [Memory.Free, hs]


theorem mutate_inv {l l1 : List} {mem mem1 : Memory T} {m : Mutation T}
    (h : l.mutate mem m = Outcome.returned () (l1, mem1)) :
    l1.m_Allocator = l.m_Allocator ∧ mem1.sizeofType = mem.sizeofType ∧
    ((l1.m_Data = l.m_Data ∧ l1.m_Capacity = l.m_Capacity ∧ mem1.calls = mem.calls ∧
        mem1.buffers.length = mem.buffers.length) ∨
      ∃ al, l.m_Allocator = some al ∧ l1.m_Data = some mem.buffers.length ∧
        mem1.calls = mem.calls ++
          [Call.Allocate al l1.m_Capacity (some mem.buffers.length),
           Call.Free al l.m_Data (l.m_Capacity * mem.sizeofType)] ∧
        mem1.buffers.length = mem.buffers.length + 1) := by
  cases m with
  | Add element =>
    simp only [mutate, Add] at h
    split at h
    · split at h
      · next l2 mem2 hinc =>
        simp only [IncreaseCapacity] at hinc
        split at hinc
        · cases hinc
        · obtain ⟨al, hal, hal2, hdata, hcap, hcalls, hlen, hsz⟩ := SetCapacity_inv hinc
          obtain ⟨h1, hc1, hb1, hs1⟩ := assignSlot_inv h
          subst h1
          refine ⟨by rw [hal2]; exact hal.symm, by rw [hs1, hsz], Or.inr ⟨al, hal, hdata, ?_, ?_⟩⟩
          · rw [hc1, hcalls, hcap]
          · rw [hb1, hlen]
      · next hne =>
        exfalso
        revert h
        cases hinc : IncreaseCapacity { l with m_Size := l.m_Size + 1 } mem with
        | returned r st =>
          obtain ⟨l2, mem2⟩ := st
          exact absurd hinc (hne r l2 mem2)
        | threw st => intro h; cases h
        | asserted st => intro h; cases h
        | undefined => intro h; cases h
    · obtain ⟨h1, hc1, hb1, hs1⟩ := assignSlot_inv h
      subst h1
      exact ⟨rfl, hs1, Or.inl ⟨rfl, rfl, hc1, hb1⟩⟩
  | Insert index element =>
    simp only [mutate, Insert, ALL_ASSERT] at h
    split at h
    · obtain ⟨h1, hc1, hb1, hs1⟩ := assignSlot_inv h
      subst h1
      exact ⟨rfl, hs1, Or.inl ⟨rfl, rfl, hc1, hb1⟩⟩
    · cases h
  | Remove index =>
    simp only [mutate, Remove, ALL_ASSERT] at h
    split at h
    · split at h
      · cases h
      · next mem2 hcopy =>
        obtain ⟨hc, hb, hs⟩ := Memory.memcpy_frame hcopy
        injection h with _ h
        injection h with h1 h2
        subst h1 h2
        exact ⟨rfl, hs, Or.inl ⟨rfl, rfl, hc, hb⟩⟩
    · cases h
  | SetCapacity newCapacity =>
    simp only [mutate] at h
    obtain ⟨al, hal, hal2, hdata, hcap, hcalls, hlen, hsz⟩ := SetCapacity_inv h
    exact ⟨by rw [hal2]; exact hal.symm, hsz, Or.inr ⟨al, hal, hdata, by rw [hcalls, hcap], hlen⟩⟩
  | Resize newSize =>
    simp only [mutate, Resize] at h
    split at h
    · split at h
      · next l2 mem2 hset =>
        obtain ⟨al, hal, hal2, hdata, hcap, hcalls, hlen, hsz⟩ := SetCapacity_inv hset
        injection h with _ h
        injection h with h1 h2
        subst h1 h2
        exact ⟨by simp only; rw [hal2]; exact hal.symm, hsz,
          Or.inr ⟨al, hal, hdata, by simp only; rw [hcalls, hcap], hlen⟩⟩
      · next hne =>
        exfalso
        revert h
        cases hset : SetCapacity l mem newSize with
        | returned r st =>
          obtain ⟨l2, mem2⟩ := st
          exact absurd hset (hne r l2 mem2)
        | threw st => intro h; cases h
        | asserted st => intro h; cases h
        | undefined => intro h; cases h
    · injection h with _ h
      injection h with h1 h2
      subst h1 h2
      exact ⟨rfl, rfl, Or.inl ⟨rfl, rfl, rfl, rfl⟩⟩


theorem zip_chain_append {α : Type} (first last new : α) (later earlier : Sequence α)
    (h : first :: later = earlier ++ [last]) :
    List.zip (first :: (later ++ [new])) (later ++ [new]) =
      List.zip (first :: later) later ++ [(last, new)] := by
  have hlen : earlier.length = later.length := by
    have := congrArg List.length h
    simp only [List.length_cons, List.length_append, List.length_nil] at this
    omega
  have h1 : first :: (later ++ [new]) = earlier ++ [last, new] := by
    rw [← List.cons_append, h, List.append_assoc]
    rfl
  have h2 : List.zip (first :: later) later = List.zip earlier later := by
    rw [h]
    have := @List.zip_append α α earlier [last] later [] hlen
    rw [List.append_nil] at this
    rw [this]
    simp
  rw [h1, h2, List.zip_append hlen]
  rfl

theorem mutateAll_protocol (base : Sequence Call) (al sz : Nat) (first : Nat × Nat)
    (ms : Sequence (Mutation T)) :
    ∀ (l : List) (mem : Memory T) (later earlier : Sequence (Nat × Nat)) (a : Nat),
      mem.calls = base ++ Call.Allocate al first.1 (some first.2) ::
        (List.zip (first :: later) later).flatMap
          (fun step : (Nat × Nat) × (Nat × Nat) =>
            [Call.Allocate al step.2.1 (some step.2.2),
             Call.Free al (some step.1.2) (step.1.1 * sz)]) →
      mem.sizeofType = sz → l.m_Allocator = some al →
      first :: later = earlier ++ [(l.m_Capacity, a)] → l.m_Data = some a →
      (∀ p ∈ first :: later, p.2 < mem.buffers.length) →
      ((first :: later).map Prod.snd).Nodup →
      ∀ (l1 : List) (mem1 : Memory T),
        l.mutateAll mem ms = Outcome.returned () (l1, mem1) →
        ∃ (later1 earlier1 : Sequence (Nat × Nat)) (a1 : Nat),
          mem1.calls = base ++ Call.Allocate al first.1 (some first.2) ::
            (List.zip (first :: later1) later1).flatMap
              (fun step : (Nat × Nat) × (Nat × Nat) =>
                [Call.Allocate al step.2.1 (some step.2.2),
                 Call.Free al (some step.1.2) (step.1.1 * sz)]) ∧
          mem1.sizeofType = sz ∧ l1.m_Allocator = some al ∧
          first :: later1 = earlier1 ++ [(l1.m_Capacity, a1)] ∧ l1.m_Data = some a1 ∧
          (∀ p ∈ first :: later1, p.2 < mem1.buffers.length) ∧
          ((first :: later1).map Prod.snd).Nodup := by
  induction ms with
  | nil =>
    intro l mem later earlier a hcalls hsz hal hchain hdata hbound hnodup l1 mem1 hrun
    simp only [mutateAll] at hrun
    injection hrun with _ h
    injection h with h1 h2
    subst h1 h2
    exact ⟨later, earlier, a, hcalls, hsz, hal, hchain, hdata, hbound, hnodup⟩
  | cons m ms ih =>
    intro l mem later earlier a hcalls hsz hal hchain hdata hbound hnodup l1 mem1 hrun
    simp only [mutateAll] at hrun
    split at hrun
    · next l2 mem2 hstep =>
      obtain ⟨hal2, hsz2, hcase⟩ := mutate_inv hstep
      rcases hcase with ⟨hdata2, hcap2, hc, hb⟩ | ⟨al', hal', hdata2, hc, hb⟩
      · exact ih l2 mem2 later earlier a (by rw [hc]; exact hcalls) (by rw [hsz2]; exact hsz)
          (by rw [hal2]; exact hal) (by rw [hcap2]; exact hchain) (by rw [hdata2]; exact hdata)
          (by rw [hb]; exact hbound) hnodup l1 mem1 hrun
      · have hal_eq : al' = al := by
          rw [hal] at hal'; injection hal' with h; exact h.symm
        subst hal_eq
        refine ih l2 mem2 (later ++ [(l2.m_Capacity, mem.buffers.length)]) (first :: later)
          mem.buffers.length ?_ (by rw [hsz2]; exact hsz) (by rw [hal2]; exact hal) rfl hdata2
          ?_ ?_ l1 mem1 hrun
        · rw [hc, hcalls, zip_chain_append first (l.m_Capacity, a) _ later earlier hchain,
            List.flatMap_append, hdata, hsz]
          simp
        · intro p hp
          rw [← List.cons_append] at hp
          rcases List.mem_append.mp hp with hold | hnew
          · have := hbound p hold
            omega
          · rw [List.mem_singleton] at hnew
            subst hnew
            simp only
            omega
        · rw [← List.cons_append, List.map_append]
          refine List.Nodup.append hnodup (by simp) ?_
          intro x hx hx2
          simp only [List.map_cons, List.map_nil, List.mem_singleton] at hx2
          obtain ⟨p, hp, hpx⟩ := List.mem_map.mp hx
          have := hbound p hp
          omega
    · next hne =>
      exfalso
      revert hrun
      cases hstep : l.mutate mem m with
      | returned r st =>
        obtain ⟨l2, mem2⟩ := st
        exact absurd hstep (hne r l2 mem2)
      | threw st => intro h; cases h
      | asserted st => intro h; cases h
      | undefined => intro h; cases h

theorem ctor_inv {mem mem0 : Memory T} {al capacity size : Nat} {m : Float32} {l0 : List}
    (h : ctor mem (some al) capacity size m = Outcome.returned l0 mem0) :
    l0.m_Data = some mem.buffers.length ∧ l0.m_Allocator = some al ∧
      l0.m_Capacity = capacity ∧
      mem0.calls = mem.calls ++ [Call.Allocate al capacity (some mem.buffers.length)] ∧
      mem0.buffers.length = mem.buffers.length + 1 ∧ mem0.sizeofType = mem.sizeofType := by
  by_cases hfail : mem.willFail.head? = some true
  · simp only [ctor, Memory.Allocate_of_fail mem al capacity hfail] at h
    cases h
  · simp only [ctor, Memory.Allocate_of_ok mem al capacity hfail] at h
    injection h with h1 h2
    subst h1 h2
    simp

/-- Claim C11.  A List is constructed from an allocator and then mutated by any
sequence of `Add`, `Insert`, `Remove`, `SetCapacity` and `Resize` calls that all
return.  Let the buffers it has owned be listed in order, each with the slot
count it was allocated with: the constructor's first, the one `m_Data` points to
now last, with `m_Capacity` as its slot count.  No address is listed twice.
The calls issued since the construction are exactly the constructor's
`Allocate`, and then, for each change of buffer, the `Allocate` of the new
buffer followed by the `Free` of the buffer owned until then, with the slot
count that buffer was allocated with times `sizeof(Type)`.  Any further mutating
call that returns either issues no call and keeps the buffer and the capacity,
or allocates a buffer at an address not owned before and issues `Free` for the
buffer `m_Data` pointed to when it was called, with the `m_Capacity` of that
moment times `sizeof(Type)`.  The destructor, called instead, issues `Free` for
the buffer owned now with `m_Capacity * sizeof(Type)` bytes. -/
theorem C11_release_protocol (mem : Memory T) (al capacity size : Nat) (m : Float32)
    (ms : Sequence (Mutation T)) (l0 l1 : List) (mem0 mem1 : Memory T)
    (hctor : ctor mem (some al) capacity size m = Outcome.returned l0 mem0)
    (hrun : l0.mutateAll mem0 ms = Outcome.returned () (l1, mem1)) :
    ∃ (later earlier : Sequence (Nat × Nat)) (a : Nat) (mem2 : Memory T),
      (capacity, mem.buffers.length) :: later = earlier ++ [(l1.m_Capacity, a)] ∧
      l1.m_Data = some a ∧
      (((capacity, mem.buffers.length) :: later).map Prod.snd).Nodup ∧
      mem1.calls = mem.calls ++ Call.Allocate al capacity (some mem.buffers.length) ::
        (List.zip ((capacity, mem.buffers.length) :: later) later).flatMap
          (fun step : (Nat × Nat) × (Nat × Nat) =>
            [Call.Allocate al step.2.1 (some step.2.2),
             Call.Free al (some step.1.2) (step.1.1 * mem.sizeofType)]) ∧
      (∀ (next : Mutation T) (l2 : List) (mem3 : Memory T),
        l1.mutate mem1 next = Outcome.returned () (l2, mem3) →
        (l2.m_Data = l1.m_Data ∧ l2.m_Capacity = l1.m_Capacity ∧
          mem3.calls = mem1.calls) ∨
        ∃ b : Nat, l2.m_Data = some b ∧
          b ∉ ((capacity, mem.buffers.length) :: later).map Prod.snd ∧
          mem3.calls = mem1.calls ++
            [Call.Allocate al l2.m_Capacity (some b),
             Call.Free al (some a) (l1.m_Capacity * mem.sizeofType)]) ∧
      l1.dtor mem1 = Outcome.returned () mem2 ∧
      mem2.calls = mem1.calls ++
        [Call.Free al (some a) (l1.m_Capacity * mem.sizeofType)] := by
  obtain ⟨hdata, hal, hcap, hcalls, hlen, hsz⟩ := ctor_inv hctor
  obtain ⟨later, earlier, a, hc1, hs1, hal1, hchain, ha, hbound, hnodup⟩ :=
    mutateAll_protocol mem.calls al mem.sizeofType (capacity, mem.buffers.length) ms l0 mem0
      [] [] mem.buffers.length (by rw [hcalls]; simp) hsz hal (by rw [hcap]; rfl) hdata
      (by
        intro p hp
        rw [List.mem_singleton] at hp
        subst hp
        simp only
        omega)
      (by simp) l1 mem1 hrun
  refine ⟨later, earlier, a, mem1.Free al l1.m_Data (l1.m_Capacity * mem1.sizeofType),
    hchain, ha, hnodup, hc1, ?_, ?_, ?_⟩
  · intro next l2 mem3 hstep
    obtain ⟨-, -, hcase⟩ := mutate_inv hstep
    rcases hcase with ⟨hd2, hcap2, hcalls2, -⟩ | ⟨al2, hal2, hd2, hcalls2, -⟩
    · exact Or.inl ⟨hd2, hcap2, hcalls2⟩
    · have hal_eq : al2 = al := by
        rw [hal1] at hal2; injection hal2 with h; exact h.symm
      subst hal_eq
      refine Or.inr ⟨mem1.buffers.length, hd2, ?_, ?_⟩
      · intro hmem
        obtain ⟨p, hp, hpx⟩ := List.mem_map.mp hmem
        have := hbound p hp
        omega
      · rw [hcalls2, ha, hs1]
  · simp only [dtor, hal1]
  · simp [Memory.Free, ha, hs1]

end List

/-! ## The theorems of this part at concrete Lists -/

/-- Witness of claim C11: a List of capacity 2 with multiplier `2.0f`, three
`Add`, the removal of the last element and of the first of the two left, a
shrinking `SetCapacity` and a growing `Resize`. -/
theorem C11_release_protocol_witness :
    ∃ (l0 l1 : List) (mem0 mem1 : Memory Nat),
      (List.ctor emptyMemory (some 7) 2 0 (Float32.ofNat 2) = Outcome.returned l0 mem0 ∧
        l0.mutateAll mem0
          [Mutation.Add 10, Mutation.Add 20, Mutation.Add 30, Mutation.Remove 2,
           Mutation.Remove 0, Mutation.SetCapacity 1, Mutation.Resize 3] =
          Outcome.returned () (l1, mem1)) ∧
      ∃ (later earlier : Sequence (Nat × Nat)) (a : Nat) (mem2 : Memory Nat),
        (2, emptyMemory.buffers.length) :: later = earlier ++ [(l1.m_Capacity, a)] ∧
        l1.m_Data = some a ∧
        (((2, emptyMemory.buffers.length) :: later).map Prod.snd).Nodup ∧
        mem1.calls = emptyMemory.calls ++
          Call.Allocate 7 2 (some emptyMemory.buffers.length) ::
          (List.zip ((2, emptyMemory.buffers.length) :: later) later).flatMap
            (fun step : (Nat × Nat) × (Nat × Nat) =>
              [Call.Allocate 7 step.2.1 (some step.2.2),
               Call.Free 7 (some step.1.2) (step.1.1 * emptyMemory.sizeofType)]) ∧
        (∀ (next : Mutation Nat) (l2 : List) (mem3 : Memory Nat),
          l1.mutate mem1 next = Outcome.returned () (l2, mem3) →
          (l2.m_Data = l1.m_Data ∧ l2.m_Capacity = l1.m_Capacity ∧
            mem3.calls = mem1.calls) ∨
          ∃ b : Nat, l2.m_Data = some b ∧
            b ∉ ((2, emptyMemory.buffers.length) :: later).map Prod.snd ∧
            mem3.calls = mem1.calls ++
              [Call.Allocate 7 l2.m_Capacity (some b),
               Call.Free 7 (some a) (l1.m_Capacity * emptyMemory.sizeofType)]) ∧
        l1.dtor mem1 = Outcome.returned () mem2 ∧
        mem2.calls = mem1.calls ++
          [Call.Free 7 (some a) (l1.m_Capacity * emptyMemory.sizeofType)] :=
  ⟨_, _, _, _, ⟨rfl, rfl⟩,
   List.C11_release_protocol emptyMemory 7 2 0 (Float32.ofNat 2)
     [Mutation.Add 10, Mutation.Add 20, Mutation.Add 30, Mutation.Remove 2,
      Mutation.Remove 0, Mutation.SetCapacity 1, Mutation.Resize 3] _ _ _ _ rfl rfl⟩

/-- Witness of claim C16: `Add(30)` on the full List with an allocator that
refuses the request for 4 slots. -/
theorem C16_Add_not_atomic_witness :
    (fullList.m_Size = fullList.m_Capacity ∧ fullList.m_Allocator = some 7 ∧
      Float32.mulToSize fullList.m_Capacity fullList.m_IncreaseCapacityMultiplier = some 4 ∧
      refusingMemory.willFail.head? = some true) ∧
    ∃ (l1 : List) (mem1 : Memory Nat),
      fullList.Add refusingMemory 30 = Outcome.threw (l1, mem1) ∧
      l1.m_Size = fullList.m_Size + 1 ∧ l1.m_Capacity < l1.m_Size ∧
      l1.m_Data = fullList.m_Data ∧ l1.m_Capacity = fullList.m_Capacity ∧
      mem1.buffers = refusingMemory.buffers ∧
      mem1.calls = refusingMemory.calls ++ [Call.Allocate 7 4 none] ∧
      l1 ≠ fullList :=
  ⟨⟨rfl, rfl, by decide, rfl⟩,
   List.C16_Add_not_atomic fullList refusingMemory 30 7 4 rfl rfl (by decide) rfl⟩

/-- Witness of claim C17: a List of capacity 2 in the empty memory. -/
theorem C17_copy_is_freed_twice_witness :
    emptyMemory.willFail.head? ≠ some true ∧
    ∃ (s : List) (mem0 : Memory Nat) (c : List) (mem1 mem2 : Memory Nat) (a : Nat),
      List.ctor emptyMemory (some 7) 2 0 (Float32.ofNat 2) = Outcome.returned s mem0 ∧
      List.copyCtor s mem0 = Outcome.returned c (s, mem0) ∧
      c.dtor mem0 = Outcome.returned () mem1 ∧
      s.dtor mem1 = Outcome.returned () mem2 ∧
      s.m_Data = some a ∧ c.m_Data = some a ∧
      mem2.calls = emptyMemory.calls ++
        [Call.Allocate 7 2 (some a),
         Call.Free 7 (some a) (2 * emptyMemory.sizeofType),
         Call.Free 7 (some a) (2 * emptyMemory.sizeofType)] :=
  ⟨by decide,
   List.C17_copy_is_freed_twice emptyMemory 7 2 0 (Float32.ofNat 2) (by decide)⟩

/-- Witness of claim C19: `SetCapacity(5)` and `Resize(5)` on the full List with an
allocator that refuses the request. -/
theorem C19_SetCapacity_Resize_atomic_witness :
    (fullList.m_Allocator = some 7 ∧ refusingMemory.willFail.head? = some true) ∧
    (∃ mem1 : Memory Nat,
      fullList.SetCapacity refusingMemory 5 = Outcome.threw (fullList, mem1) ∧
      mem1.buffers = refusingMemory.buffers ∧
      mem1.calls = refusingMemory.calls ++ [Call.Allocate 7 5 none]) ∧
    (fullList.m_Capacity < 5 →
      ∃ mem1 : Memory Nat,
        fullList.Resize refusingMemory 5 = Outcome.threw (fullList, mem1) ∧
        mem1.buffers = refusingMemory.buffers ∧
        mem1.calls = refusingMemory.calls ++ [Call.Allocate 7 5 none]) :=
  ⟨⟨rfl, rfl⟩, List.C19_SetCapacity_Resize_atomic fullList refusingMemory 7 5 5 rfl rfl⟩

/-- Witness of claim C20 (amended): the full List is assigned from a List that
owns another buffer. -/
theorem C20_assignment_drops_buffer_witness :
    (fullList.m_Data ≠ none ∧ otherList.m_Data ≠ fullList.m_Data) ∧
    (∃ d1 s1 : List,
      List.moveAssignIn fullList otherList pairMemory =
        Outcome.returned () ((d1, s1), pairMemory) ∧
      d1.m_Data ≠ fullList.m_Data ∧ s1.m_Data ≠ fullList.m_Data) ∧
    (∃ d1 s1 : List,
      List.copyAssign fullList otherList pairMemory =
        Outcome.returned () ((d1, s1), pairMemory) ∧
      d1.m_Data ≠ fullList.m_Data ∧ s1.m_Data ≠ fullList.m_Data) :=
  ⟨⟨by decide, by decide⟩,
   List.C20_assignment_drops_buffer fullList otherList pairMemory (by decide) (by decide)⟩

end All
